import Mathlib

/-!
# Verification of the kugame progression and encounter engine

A shallow embedding, in Lean 4, of the core logic of the kugame repository
(`src/kugame/player.py`, `src/kugame/game_engine.py`), together with theorems
settling the specification claims about it.

Python `float` values are IEEE 754 binary64 numbers.  We model them as exact
rational values together with an explicit rounding function `fl` (round to
nearest, ties to even, 53-bit significand, unbounded exponent range: every
number handled by the game is far away from the binary64 overflow and
subnormal thresholds).  Python's `**` on floats is modelled as correctly
rounded, which matches the glibc `pow` used by CPython.  Python's `int(x)`
truncation toward zero is `pyTrunc`.  Python integers are `ℤ` (arbitrary
precision), and an `int` appearing in a float expression is first rounded
to binary64, exactly as CPython converts it.
-/

set_option maxRecDepth 16000

attribute [local semireducible] Rat.add Rat.mul Rat.inv Rat.sub Rat.ofScientific

namespace KuGame

/-! ## Binary logarithms, computably

`Nat.log` and `Nat.clog` are defined by well-founded recursion and do not
reduce in the kernel, so concrete evaluation (`decide`) could not use them.
We implement the base-2 logarithm by doubling followed by binary search:
the fuel argument is generous (the number itself) but is peeled only once
per iteration, and the number of iterations is logarithmic. -/

/-- Grow `e` by doubling until `n < 2 ^ e`. -/
def log2Hi : ℕ → ℕ → ℕ → ℕ
  | 0, e, _ => e
  | fuel + 1, e, n => if n < 2 ^ e then e else log2Hi fuel (2 * e) n

/-- Binary search: assuming `2 ^ lo ≤ n < 2 ^ hi`, find `r` with
`2 ^ r ≤ n < 2 ^ (r + 1)`. -/
def log2Go : ℕ → ℕ → ℕ → ℕ → ℕ
  | 0, lo, _, _ => lo
  | fuel + 1, lo, hi, n =>
    if hi ≤ lo + 1 then lo
    else if 2 ^ ((lo + hi) / 2) ≤ n then log2Go fuel ((lo + hi) / 2) hi n
    else log2Go fuel lo ((lo + hi) / 2) n

/-- Kernel-reducible base-2 logarithm on `ℕ`, equal to `Nat.log 2`. -/
def natLog2 (n : ℕ) : ℕ :=
  if n ≤ 1 then 0
  else
    let hi := log2Hi n 1 n
    log2Go hi 0 hi n

theorem log2Hi_spec : ∀ (fuel e n : ℕ), n < 2 ^ (e * 2 ^ fuel) →
    n < 2 ^ log2Hi fuel e n := by
  intro fuel
  induction fuel with
  | zero =>
    intro e n h
    simpa [log2Hi] using h
  | succ f ih =>
    intro e n h
    rw [log2Hi]
    split
    · assumption
    · exact ih (2 * e) n (by rw [show 2 * e * 2 ^ f = e * 2 ^ (f + 1) by ring]; exact h)

theorem log2Go_spec : ∀ (fuel lo hi n : ℕ), 2 ^ lo ≤ n → n < 2 ^ hi →
    hi ≤ lo + fuel + 1 →
    2 ^ log2Go fuel lo hi n ≤ n ∧ n < 2 ^ (log2Go fuel lo hi n + 1) := by
  intro fuel
  induction fuel with
  | zero =>
    intro lo hi n hlo hhi hf
    refine ⟨by simpa [log2Go] using hlo, ?_⟩
    have : (2 : ℕ) ^ hi ≤ 2 ^ (lo + 1) := Nat.pow_le_pow_right (by norm_num) (by omega)
    simp only [log2Go]
    omega
  | succ f ih =>
    intro lo hi n hlo hhi hf
    rw [log2Go]
    split
    · refine ⟨hlo, ?_⟩
      have : (2 : ℕ) ^ hi ≤ 2 ^ (lo + 1) := Nat.pow_le_pow_right (by norm_num) (by omega)
      omega
    · rename_i hgap
      split
      · exact ih ((lo + hi) / 2) hi n (by assumption) hhi (by omega)
      · rename_i hlt
        exact ih lo ((lo + hi) / 2) n hlo (by omega) (by omega)

theorem natLog2_spec {n : ℕ} (hn : 2 ≤ n) :
    2 ^ natLog2 n ≤ n ∧ n < 2 ^ (natLog2 n + 1) := by
  have hbig : n < 2 ^ (1 * 2 ^ n) := by
    rw [one_mul]
    exact lt_of_lt_of_le (Nat.lt_two_pow n)
      (Nat.pow_le_pow_right (by norm_num) (Nat.le_of_lt (Nat.lt_two_pow n)))
  have hhi : n < 2 ^ log2Hi n 1 n := log2Hi_spec n 1 n hbig
  have h := log2Go_spec (log2Hi n 1 n) 0 (log2Hi n 1 n) n (by simpa using Nat.one_le_iff_ne_zero.2 (by omega)) hhi (by omega)
  simpa [natLog2, show ¬ n ≤ 1 by omega] using h

theorem natLog2_eq_log (n : ℕ) : natLog2 n = Nat.log 2 n := by
  rcases Nat.lt_or_ge n 2 with h | h
  · interval_cases n <;> simp [natLog2]
  · have hs := natLog2_spec h
    exact (Nat.log_eq_of_pow_le_of_lt_pow hs.1 hs.2).symm

/-- Kernel-reducible base-2 ceiling logarithm on `ℕ`, equal to `Nat.clog 2`. -/
def natClog2 (n : ℕ) : ℕ :=
  if n ≤ 1 then 0 else natLog2 (n - 1) + 1

theorem natClog2_eq_clog (n : ℕ) : natClog2 n = Nat.clog 2 n := by
  rcases Nat.lt_or_ge n 2 with h | h
  · interval_cases n <;> simp [natClog2]
  · have h1 : n - 1 ≠ 0 := by omega
    rw [natClog2, if_neg (by omega), natLog2_eq_log]
    refine le_antisymm ?_ ?_
    · have hle : 2 ^ Nat.log 2 (n - 1) ≤ n - 1 := Nat.pow_log_le_self 2 h1
      have h2 : Nat.log 2 (n - 1) < Nat.clog 2 n := by
        apply (Nat.pow_lt_iff_lt_clog (by norm_num)).1
        omega
      omega
    · apply (Nat.le_pow_iff_clog_le (by norm_num)).1
      have hlt : n - 1 < 2 ^ (Nat.log 2 (n - 1) + 1) := Nat.lt_pow_succ_log_self (by norm_num) _
      omega

/-- Kernel-reducible `Int.log 2` for rationals. -/
def ratLog2 (q : ℚ) : ℤ :=
  if 1 ≤ q then (natLog2 ⌊q⌋.toNat : ℤ) else -(natClog2 ⌈q⁻¹⌉.toNat : ℤ)

theorem ratLog2_eq_log (q : ℚ) : ratLog2 q = Int.log 2 q := by
  rw [ratLog2, Int.log]
  split
  · rw [natLog2_eq_log, Int.floor_toNat]
  · rw [natClog2_eq_clog, Int.ceil_toNat]

/-! ## Binary64 rounding -/

/-- Round a rational to the nearest integer, ties to even. -/
def rhe (q : ℚ) : ℤ :=
  if q - ⌊q⌋ < 1 / 2 then ⌊q⌋
  else if 1 / 2 < q - ⌊q⌋ then ⌊q⌋ + 1
  else if ⌊q⌋ % 2 = 0 then ⌊q⌋ else ⌊q⌋ + 1

theorem rhe_bounds (q : ℚ) : ⌊q⌋ ≤ rhe q ∧ rhe q ≤ ⌊q⌋ + 1 := by
  rw [rhe]
  split
  · omega
  · split
    · omega
    · split <;> omega

theorem rhe_mono {q r : ℚ} (h : q ≤ r) : rhe q ≤ rhe r := by
  rcases lt_or_ge ⌊q⌋ ⌊r⌋ with hf | hf
  · have h1 := (rhe_bounds q).2
    have h2 := (rhe_bounds r).1
    omega
  · have hf' : ⌊q⌋ = ⌊r⌋ := le_antisymm (Int.floor_le_floor h) hf
    have hfr : q - (⌊r⌋ : ℚ) ≤ r - ⌊r⌋ := by
      rw [← hf']
      have := Int.floor_le q
      linarith
    rw [rhe, rhe, hf']
    by_cases h1 : q - (⌊r⌋ : ℚ) < 1 / 2
    · rw [if_pos h1]
      by_cases h2 : r - (⌊r⌋ : ℚ) < 1 / 2
      · rw [if_pos h2]
      · rw [if_neg h2]
        by_cases h3 : (1 : ℚ) / 2 < r - ⌊r⌋
        · rw [if_pos h3]
          omega
        · rw [if_neg h3]
          split <;> omega
    · rw [if_neg h1]
      have hr1 : ¬ r - (⌊r⌋ : ℚ) < 1 / 2 := by
        intro hc
        exact h1 (lt_of_le_of_lt hfr hc)
      rw [if_neg hr1]
      by_cases h2 : (1 : ℚ) / 2 < q - ⌊r⌋
      · rw [if_pos h2, if_pos (lt_of_lt_of_le h2 hfr)]
      · rw [if_neg h2]
        by_cases h3 : (1 : ℚ) / 2 < r - ⌊r⌋
        · rw [if_pos h3]
          split <;> omega
        · rw [if_neg h3]

/-- Round a positive rational to 53 significant bits, ties to even. -/
def flPos (q : ℚ) : ℚ :=
  ((rhe (q / 2 ^ (ratLog2 q - 52)) : ℚ)) * 2 ^ (ratLog2 q - 52)

/-- IEEE 754 binary64 rounding (round to nearest, ties to even), with
unbounded exponent range. -/
def fl (q : ℚ) : ℚ :=
  if q = 0 then 0 else if q < 0 then -flPos (-q) else flPos q

theorem flPos_scaled_bounds {q : ℚ} (hq : 0 < q) :
    (2 : ℚ) ^ (52 : ℤ) ≤ q / 2 ^ (ratLog2 q - 52) ∧
      q / 2 ^ (ratLog2 q - 52) < 2 ^ (53 : ℤ) := by
  have hlow : (2 : ℚ) ^ ratLog2 q ≤ q := by
    rw [ratLog2_eq_log]
    exact_mod_cast Int.zpow_log_le_self (b := 2) (by norm_num) hq
  have hhigh : q < (2 : ℚ) ^ (ratLog2 q + 1) := by
    rw [ratLog2_eq_log]
    exact_mod_cast Int.lt_zpow_succ_log_self (b := 2) (by norm_num) q
  have hpow : (0 : ℚ) < 2 ^ (ratLog2 q - 52) := zpow_pos (by norm_num) _
  constructor
  · rw [le_div_iff₀ hpow, ← zpow_add₀ (by norm_num : (2 : ℚ) ≠ 0),
      show (52 : ℤ) + (ratLog2 q - 52) = ratLog2 q by ring]
    exact hlow
  · rw [div_lt_iff₀ hpow, ← zpow_add₀ (by norm_num : (2 : ℚ) ≠ 0),
      show (53 : ℤ) + (ratLog2 q - 52) = ratLog2 q + 1 by ring]
    exact hhigh

theorem flPos_bounds {q : ℚ} (hq : 0 < q) :
    (2 : ℚ) ^ ratLog2 q ≤ flPos q ∧ flPos q ≤ 2 ^ (ratLog2 q + 1) := by
  obtain ⟨h1, h2⟩ := flPos_scaled_bounds hq
  have hpow : (0 : ℚ) < 2 ^ (ratLog2 q - 52) := zpow_pos (by norm_num) _
  have e52 : ((2 ^ 52 : ℤ) : ℚ) = (2 : ℚ) ^ (52 : ℤ) := by norm_num
  have e53 : ((2 ^ 53 : ℤ) : ℚ) = (2 : ℚ) ^ (53 : ℤ) := by norm_num
  have hfl : (2 ^ 52 : ℤ) ≤ ⌊q / 2 ^ (ratLog2 q - 52)⌋ :=
    Int.le_floor.2 (by rw [e52]; exact h1)
  have hfh : ⌊q / 2 ^ (ratLog2 q - 52)⌋ < (2 ^ 53 : ℤ) :=
    Int.floor_lt.2 (by rw [e53]; exact h2)
  obtain ⟨hr1, hr2⟩ := rhe_bounds (q / 2 ^ (ratLog2 q - 52))
  have hrlow : (2 : ℚ) ^ (52 : ℤ) ≤ (rhe (q / 2 ^ (ratLog2 q - 52)) : ℚ) := by
    rw [← e52]
    exact_mod_cast le_trans hfl hr1
  have hrhigh : (rhe (q / 2 ^ (ratLog2 q - 52)) : ℚ) ≤ (2 : ℚ) ^ (53 : ℤ) := by
    rw [← e53]
    have : rhe (q / 2 ^ (ratLog2 q - 52)) ≤ (2 ^ 53 : ℤ) := le_trans hr2 (by omega)
    exact_mod_cast this
  constructor
  · rw [flPos, show (2 : ℚ) ^ ratLog2 q = 2 ^ (52 : ℤ) * 2 ^ (ratLog2 q - 52) by
      rw [← zpow_add₀ (by norm_num : (2 : ℚ) ≠ 0)]
      congr 1
      ring]
    exact mul_le_mul_of_nonneg_right hrlow (le_of_lt hpow)
  · rw [flPos, show (2 : ℚ) ^ (ratLog2 q + 1) = 2 ^ (53 : ℤ) * 2 ^ (ratLog2 q - 52) by
      rw [← zpow_add₀ (by norm_num : (2 : ℚ) ≠ 0)]
      congr 1
      ring]
    exact mul_le_mul_of_nonneg_right hrhigh (le_of_lt hpow)

theorem flPos_pos {q : ℚ} (hq : 0 < q) : 0 < flPos q :=
  lt_of_lt_of_le (zpow_pos (by norm_num) _) (flPos_bounds hq).1

theorem flPos_mono {a b : ℚ} (ha : 0 < a) (hab : a ≤ b) : flPos a ≤ flPos b := by
  have hb : 0 < b := lt_of_lt_of_le ha hab
  have hlog : ratLog2 a ≤ ratLog2 b := by
    rw [ratLog2_eq_log, ratLog2_eq_log]
    exact Int.log_mono_right ha hab
  rcases eq_or_lt_of_le hlog with heq | hlt
  · rw [flPos, flPos, ← heq]
    have hpow : (0 : ℚ) < 2 ^ (ratLog2 a - 52) := zpow_pos (by norm_num) _
    apply mul_le_mul_of_nonneg_right _ (le_of_lt hpow)
    have : a / 2 ^ (ratLog2 a - 52) ≤ b / 2 ^ (ratLog2 a - 52) := by gcongr
    exact_mod_cast rhe_mono this
  · calc flPos a ≤ 2 ^ (ratLog2 a + 1) := (flPos_bounds ha).2
      _ ≤ 2 ^ ratLog2 b := by
          apply zpow_le_zpow_right₀ (by norm_num : (1 : ℚ) ≤ 2)
          omega
      _ ≤ flPos b := (flPos_bounds hb).1

theorem fl_nonneg {q : ℚ} (hq : 0 ≤ q) : 0 ≤ fl q := by
  rw [fl]
  rcases eq_or_lt_of_le hq with h | h
  · rw [if_pos h.symm]
  · rw [if_neg (by linarith), if_neg (by linarith)]
    exact le_of_lt (flPos_pos h)

theorem fl_one_le {q : ℚ} (hq : 1 ≤ q) : 1 ≤ fl q := by
  have h0 : 0 < q := by linarith
  rw [fl, if_neg (by linarith), if_neg (by linarith)]
  have hlog : 0 ≤ ratLog2 q := by
    rw [ratLog2, if_pos hq]
    exact Int.natCast_nonneg _
  calc (1 : ℚ) = 2 ^ (0 : ℤ) := by norm_num
    _ ≤ 2 ^ ratLog2 q := zpow_le_zpow_right₀ (by norm_num) hlog
    _ ≤ flPos q := (flPos_bounds h0).1

theorem fl_mono_nonneg {a b : ℚ} (ha : 0 ≤ a) (hab : a ≤ b) : fl a ≤ fl b := by
  rcases eq_or_lt_of_le ha with h | h
  · rw [← h]
    simpa [fl] using fl_nonneg (le_trans ha hab)
  · rw [fl, fl, if_neg (by linarith), if_neg (by linarith),
      if_neg (by linarith), if_neg (by linarith)]
    exact flPos_mono h hab

/-- Python's `int(x)` on a float: truncation toward zero. -/
def pyTrunc (q : ℚ) : ℤ :=
  if q < 0 then -⌊-q⌋ else ⌊q⌋

theorem pyTrunc_nonneg {q : ℚ} (hq : 0 ≤ q) : 0 ≤ pyTrunc q := by
  rw [pyTrunc, if_neg (by linarith)]
  exact Int.floor_nonneg.2 hq

theorem pyTrunc_one_le {q : ℚ} (hq : 1 ≤ q) : 1 ≤ pyTrunc q := by
  rw [pyTrunc, if_neg (by linarith)]
  exact Int.le_floor.2 (by exact_mod_cast hq)

theorem pyTrunc_mono_nonneg {a b : ℚ} (ha : 0 ≤ a) (hab : a ≤ b) :
    pyTrunc a ≤ pyTrunc b := by
  rw [pyTrunc, pyTrunc, if_neg (by linarith), if_neg (by linarith)]
  exact Int.floor_le_floor hab

/-! ## Python string helpers

`str.split(sep)` for a single-character separator, over the character list of
a string, and `int(s)` for strings of ASCII digits (the only shapes the game
ever parses; chapter labels are either unparsable or plain digit runs). -/

/-- Python `s.split(sep)` for a one-character separator `sep`. -/
def splitChar : List Char → Char → List (List Char)
  | [], _ => [[]]
  | x :: xs, c =>
    match splitChar xs c with
    | [] => [[]]
    | h :: t => if x = c then [] :: h :: t else (x :: h) :: t

/-- Value of one ASCII digit. -/
def digitVal (c : Char) : Option ℕ :=
  if '0' ≤ c ∧ c ≤ '9' then some (c.toNat - '0'.toNat) else none

def digitsValGo : List Char → ℕ → Option ℕ
  | [], acc => some acc
  | c :: cs, acc =>
    match digitVal c with
    | none => none
    | some d => digitsValGo cs (acc * 10 + d)

/-- Python `int(s)` on a digit string; `none` models the `ValueError` raised
on the empty string or on a non-digit character. -/
def pyIntParse (l : List Char) : Option ℤ :=
  if l.isEmpty then none else (digitsValGo l 0).map (fun n => (n : ℤ))

/-- Chapter-ordinal parsing from `Player.check_and_unlock_achievements`:
`int(self.current_chapter.split("第")[1].split("章")[0])`, with `none`
modelling the caught `IndexError`/`ValueError`. -/
def chapterNum (s : String) : Option ℤ :=
  match (splitChar s.data '第').get? 1 with
  | none => none
  | some rest =>
    match (splitChar rest '章').get? 0 with
    | none => none
    | some digits => pyIntParse digits

/-! ## Data model (`src/kugame/player.py`) -/

/-- The `AchievementType` enum. -/
inductive AchievementType
  | commandMastery
  | storyProgress
  | challengeCompletion
  | streakSuccess
  | sectSpecialization
deriving DecidableEq

/-- The `.value` string of an `AchievementType` member. -/
def achievementTypeValue : AchievementType → String
  | .commandMastery => "command_mastery"
  | .storyProgress => "story_progress"
  | .challengeCompletion => "challenge_completion"
  | .streakSuccess => "streak_success"
  | .sectSpecialization => "sect_specialization"

/-- Python `AchievementType(value)`: lookup by value, `none` is `ValueError`. -/
def parseAchievementType (s : String) : Option AchievementType :=
  if s = "command_mastery" then some .commandMastery
  else if s = "story_progress" then some .storyProgress
  else if s = "challenge_completion" then some .challengeCompletion
  else if s = "streak_success" then some .streakSuccess
  else if s = "sect_specialization" then some .sectSpecialization
  else none

/-- The `CultivationLevel` enum; rank `k` (1-10) covers levels
`k*10-9 .. k*10`. -/
inductive CultivationLevel
  | fanren
  | lianqi
  | zhuji
  | jindan
  | yuanying
  | huashen
  | dacheng
  | dujie
  | sanxian
  | jinxian
deriving DecidableEq

/-- The `.name` of a `CultivationLevel` member (used by `to_dict`/`load`). -/
def cultivationName : CultivationLevel → String
  | .fanren => "凡人"
  | .lianqi => "练气期"
  | .zhuji => "筑基期"
  | .jindan => "金丹期"
  | .yuanying => "元婴期"
  | .huashen => "化神期"
  | .dacheng => "大乘期"
  | .dujie => "渡劫期"
  | .sanxian => "散仙"
  | .jinxian => "金仙"

/-- Python `CultivationLevel[name]`: lookup by member name, `none` is
`KeyError` (which `load` catches, substituting `fanren`). -/
def parseCultivation (s : String) : Option CultivationLevel :=
  if s = "凡人" then some .fanren
  else if s = "练气期" then some .lianqi
  else if s = "筑基期" then some .zhuji
  else if s = "金丹期" then some .jindan
  else if s = "元婴期" then some .yuanying
  else if s = "化神期" then some .huashen
  else if s = "大乘期" then some .dacheng
  else if s = "渡劫期" then some .dujie
  else if s = "散仙" then some .sanxian
  else if s = "金仙" then some .jinxian
  else none

/-- `Player._update_cultivation`: scan tiers from highest to lowest, pick the
first whose floor `rank*10-9` is at most `level`; keep the old tier when no
tier matches (only possible for `level ≤ 0`). -/
def cultivationFor (lvl : ℤ) (old : CultivationLevel) : CultivationLevel :=
  if 91 ≤ lvl then .jinxian
  else if 81 ≤ lvl then .sanxian
  else if 71 ≤ lvl then .dujie
  else if 61 ≤ lvl then .dacheng
  else if 51 ≤ lvl then .huashen
  else if 41 ≤ lvl then .yuanying
  else if 31 ≤ lvl then .jindan
  else if 21 ≤ lvl then .zhuji
  else if 11 ≤ lvl then .lianqi
  else if 1 ≤ lvl then .fanren
  else old

/-- The `Sect` enum. -/
inductive Sect
  | qingyun
  | xuantian
  | lianyu
  | xiaoyao
deriving DecidableEq

/-- The `.value` string of a `Sect` member (equal to its name). -/
def sectValue : Sect → String
  | .qingyun => "青云宗"
  | .xuantian => "玄天宗"
  | .lianyu => "炼狱门"
  | .xiaoyao => "逍遥派"

/-- Python `Sect(value)`: lookup by value, `none` is `ValueError`. -/
def parseSect (s : String) : Option Sect :=
  if s = "青云宗" then some .qingyun
  else if s = "玄天宗" then some .xuantian
  else if s = "炼狱门" then some .lianyu
  else if s = "逍遥派" then some .xiaoyao
  else none

/-- `Player._set_sect_bonus`: the binary64 values of the Python literals
`1.1`, `1.0`, `1.2`, `1.15`. -/
def sectBonusOf : Sect → ℚ
  | .qingyun => fl (11 / 10)
  | .xuantian => 1
  | .lianyu => fl (6 / 5)
  | .xiaoyao => fl (23 / 20)

/-- The `Achievement` class.  The Python `reward` dict holds at most an
`"experience"` entry and a `"title"` entry, modelled as two options. -/
structure Achievement where
  id : String
  name : String
  description : String
  type : AchievementType
  condition : ℕ
  reward_experience : Option ℤ
  reward_title : Option String
  unlocked : Bool
deriving DecidableEq

/-- The `Player` dataclass.  Python ints are `ℤ`, Python floats are exact
rationals holding binary64 values, Python lists are Lean lists. -/
structure Player where
  name : String
  sect : Sect
  level : ℤ
  experience : ℤ
  cultivation : CultivationLevel
  skills : List String
  achievements : List String
  achievement_objects : List Achievement
  current_chapter : String
  kubectl_commands_mastered : List String
  challenges_completed : List String
  streak : ℤ
  total_correct : ℤ
  total_attempts : ℤ
  custom_titles : List String
  sect_bonus : ℚ
  health : ℤ
  max_health : ℤ
  attack : ℤ
  defense : ℤ
  wrong_commands : List String
deriving DecidableEq

/-- `Player._calculate_required_exp` as a function of `self.level`:
`int(100 * (1.5 ** (self.level - 1)))` in binary64 arithmetic. -/
def requiredExp (level : ℤ) : ℤ :=
  pyTrunc (fl (100 * fl ((3 / 2 : ℚ) ^ (level - 1))))

/-- The `while` loop of `Player.level_up`: while `experience ≥ requiredExp
level`, subtract and increment.  The fuel is an upper bound on the iteration
count (each iteration removes at least 1 experience point). -/
def levelUpGo : ℕ → ℤ → ℤ → ℤ × ℤ
  | 0, lvl, e => (lvl, e)
  | fuel + 1, lvl, e =>
    if requiredExp lvl ≤ e then levelUpGo fuel (lvl + 1) (e - requiredExp lvl)
    else (lvl, e)

/-- `Player.level_up`: consume experience while above the threshold,
updating the cultivation tier on every level gained (the per-iteration
tier updates of the source collapse to one update at the final level,
and no update happens when the loop body never runs). -/
def Player.level_up (p : Player) : Player :=
  if requiredExp p.level ≤ p.experience then
    { p with
      level := (levelUpGo (p.experience.toNat + 1) p.level p.experience).1,
      experience := (levelUpGo (p.experience.toNat + 1) p.level p.experience).2,
      cultivation :=
        cultivationFor (levelUpGo (p.experience.toNat + 1) p.level p.experience).1 p.cultivation }
  else p

/-- The non-negative-amount path of `Player.gain_experience`:
`int(exp * self.sect_bonus)` is added (the `int` multiplicand is first
converted to binary64, then multiplied and rounded once), then a level-up
runs when the threshold for the current level is reached.  Returns whether
a level-up happened. -/
def Player.gainExpPos (p : Player) (exp : ℤ) : Player × Bool :=
  if requiredExp p.level ≤ p.experience + pyTrunc (fl (fl (exp : ℚ) * p.sect_bonus)) then
    (Player.level_up
      { p with experience := p.experience + pyTrunc (fl (fl (exp : ℚ) * p.sect_bonus)) }, true)
  else ({ p with experience := p.experience + pyTrunc (fl (fl (exp : ℚ) * p.sect_bonus)) }, false)

/-- `Player.gain_experience`; `none` models the `ValueError` raised on a
negative amount. -/
def Player.gain_experience (p : Player) (exp : ℤ) : Option (Player × Bool) :=
  if exp < 0 then none else some (p.gainExpPos exp)

/-- The statistics the achievement predicates read.  Unlocking an
achievement never changes them, which is what makes re-checking a no-op. -/
structure UnlockStats where
  mastered : ℕ
  chapter : String
  challenges : ℕ
  streak : ℤ
deriving DecidableEq

def Player.stats (p : Player) : UnlockStats :=
  ⟨p.kubectl_commands_mastered.length, p.current_chapter,
    p.challenges_completed.length, p.streak⟩

/-- The per-type unlock predicate of `check_and_unlock_achievements`.
The `sectSpecialization` type has no branch in the source, so nothing ever unlocks it. -/
def condMet (s : UnlockStats) (a : Achievement) : Bool :=
  match a.type with
  | .commandMastery => decide (a.condition ≤ s.mastered)
  | .storyProgress =>
    match chapterNum s.chapter with
    | some n => decide ((a.condition : ℤ) ≤ n)
    | none => false
  | .challengeCompletion => decide (a.condition ≤ s.challenges)
  | .streakSuccess => decide ((a.condition : ℤ) ≤ s.streak)
  | .sectSpecialization => false

/-- `Player.unlock_achievement`: find the first achievement with the given
id that is still locked; flip it, append its id to `achievements`, apply the
experience reward through `gain_experience` and the title reward through
`custom_titles`. -/
def Player.unlock_achievement (p : Player) (aid : String) : Player × Bool :=
  match p.achievement_objects.findIdx? (fun a => a.id == aid && !a.unlocked) with
  | none => (p, false)
  | some i =>
    match p.achievement_objects.get? i with
    | none => (p, false)
    | some a =>
      let p1 : Player :=
        { p with achievement_objects := p.achievement_objects.set i { a with unlocked := true },
                 achievements := p.achievements ++ [a.id] }
      let p2 : Player :=
        match a.reward_experience with
        | some e => (p1.gainExpPos e).1
        | none => p1
      let p3 : Player :=
        match a.reward_title with
        | some t => { p2 with custom_titles := p2.custom_titles ++ [t] }
        | none => p2
      (p3, true)

/-- The loop of `check_and_unlock_achievements`: iterate over the indices of
`achievement_objects` (unlocking mutates elements in place, never the list
length), skipping unlocked entries and unlocking those whose predicate holds,
collecting the names of the newly unlocked ones. -/
def cauGo : ℕ → ℕ → Player → Player × List String
  | 0, _, p => (p, [])
  | fuel + 1, i, p =>
    match p.achievement_objects.get? i with
    | none => (p, [])
    | some a =>
      if a.unlocked then cauGo fuel (i + 1) p
      else if condMet p.stats a then
        let r := cauGo fuel (i + 1) (p.unlock_achievement a.id).1
        (r.1, a.name :: r.2)
      else cauGo fuel (i + 1) p

/-- `Player.check_and_unlock_achievements`. -/
def Player.check_and_unlock_achievements (p : Player) : Player × List String :=
  cauGo p.achievement_objects.length 0 p

/-- `Player.update_streak`. -/
def Player.update_streak (p : Player) (correct : Bool) : Player :=
  let p1 : Player :=
    if correct then { p with streak := p.streak + 1, total_correct := p.total_correct + 1 }
    else { p with streak := 0 }
  let p2 : Player := { p1 with total_attempts := p1.total_attempts + 1 }
  p2.check_and_unlock_achievements.1

/-- `Player.learn_command`; `none` models the `ValueError` on an empty
command string. -/
def Player.learn_command (p : Player) (command : String) : Option (Player × Bool) :=
  if command = "" then none
  else if p.kubectl_commands_mastered.contains command then some (p, false)
  else
    some (((Player.gainExpPos
      { p with kubectl_commands_mastered := p.kubectl_commands_mastered ++ [command] } 50).1, true))

/-- `Player.complete_challenge`; `none` models the `ValueError` on an empty
challenge id. -/
def Player.complete_challenge (p : Player) (challenge_id : String) : Option (Player × Bool) :=
  if challenge_id = "" then none
  else if p.challenges_completed.contains challenge_id then some (p, false)
  else
    some (((Player.gainExpPos
      { p with challenges_completed := p.challenges_completed ++ [challenge_id] } 100).1, true))

/-- The predefined achievement catalog of `_initialize_achievements`. -/
def predefinedAchievements : List Achievement :=
  [⟨"cmd_master_10", "入门弟子", "掌握10个Kubernetes命令", .commandMastery, 10, some 500, some "命令初学者", false⟩,
   ⟨"cmd_master_30", "熟练弟子", "掌握30个Kubernetes命令", .commandMastery, 30, some 1500, some "命令熟练者", false⟩,
   ⟨"cmd_master_50", "命令专家", "掌握50个Kubernetes命令", .commandMastery, 50, some 3000, some "命令专家", false⟩,
   ⟨"cmd_master_all", "命令大师", "掌握所有Kubernetes命令", .commandMastery, 100, some 10000, some "Kubernetes命令大师", false⟩,
   ⟨"story_chapter_3", "初入江湖", "完成第3章故事", .storyProgress, 3, some 1000, some "江湖新秀", false⟩,
   ⟨"story_chapter_6", "江湖少侠", "完成第6章故事", .storyProgress, 6, some 2500, some "江湖少侠", false⟩,
   ⟨"story_chapter_9", "武林高手", "完成第9章故事", .storyProgress, 9, some 5000, some "武林高手", false⟩,
   ⟨"challenge_10", "挑战新手", "完成10个挑战", .challengeCompletion, 10, some 800, some "挑战新手", false⟩,
   ⟨"challenge_50", "挑战达人", "完成50个挑战", .challengeCompletion, 50, some 4000, some "挑战达人", false⟩,
   ⟨"streak_5", "小有成就", "连续正确回答5次", .streakSuccess, 5, some 300, some "连击高手", false⟩,
   ⟨"streak_10", "势如破竹", "连续正确回答10次", .streakSuccess, 10, some 800, some "连击大师", false⟩,
   ⟨"streak_20", "无人能挡", "连续正确回答20次", .streakSuccess, 20, some 2000, some "连击王者", false⟩]

/-- `Player._initialize_achievements`: a no-op when achievement objects are
already present; otherwise install the predefined catalog and immediately
check it for unlocks. -/
def Player.initializeAchievements (p : Player) : Player :=
  if p.achievement_objects.isEmpty then
    (Player.check_and_unlock_achievements
      { p with achievement_objects := predefinedAchievements }).1
  else p

/-! ## Persistence (`Player.to_dict` / `Player.save` / `Player.load`)

`save` writes `to_dict` as JSON and `load` parses it back, so the file
round-trip is the dictionary round-trip modelled here.  A parsed JSON
object is a `RawSave`: every key may be absent (`Option`), matching
`data.get(key, default)` and the explicit required-field check. -/

/-- One serialised achievement from the `"achievement_objects"` array. -/
structure RawAchievement where
  id : String
  name : String
  description : String
  type : String
  condition : ℕ
  reward_experience : Option ℤ
  reward_title : Option String
  unlocked : Bool
deriving DecidableEq

/-- A parsed save-file JSON object; `none` fields are absent keys. -/
structure RawSave where
  name : Option String
  sect : Option String
  level : Option ℤ
  experience : Option ℤ
  cultivation : Option String
  skills : Option (List String)
  achievements : Option (List String)
  achievement_objects : Option (List RawAchievement)
  current_chapter : Option String
  kubectl_commands_mastered : Option (List String)
  challenges_completed : Option (List String)
  streak : Option ℤ
  total_correct : Option ℤ
  total_attempts : Option ℤ
  custom_titles : Option (List String)
  sect_bonus : Option ℚ
deriving DecidableEq

/-- The achievement serialisation inside `Player.to_dict`. -/
def achievementToRaw (a : Achievement) : RawAchievement :=
  ⟨a.id, a.name, a.description, achievementTypeValue a.type, a.condition,
    a.reward_experience, a.reward_title, a.unlocked⟩

/-- `Player.to_dict`: every key is written (note: combat stats and
`wrong_commands` are not serialised). -/
def Player.to_dict (p : Player) : RawSave :=
  { name := some p.name
    sect := some (sectValue p.sect)
    level := some p.level
    experience := some p.experience
    cultivation := some (cultivationName p.cultivation)
    skills := some p.skills
    achievements := some p.achievements
    achievement_objects := some (p.achievement_objects.map achievementToRaw)
    current_chapter := some p.current_chapter
    kubectl_commands_mastered := some p.kubectl_commands_mastered
    challenges_completed := some p.challenges_completed
    streak := some p.streak
    total_correct := some p.total_correct
    total_attempts := some p.total_attempts
    custom_titles := some p.custom_titles
    sect_bonus := some p.sect_bonus }

/-- Achievement deserialisation in `Player.load`:
`AchievementType(ach_data["type"])` raises `ValueError` (caught by `load`)
on an unknown type string. -/
def parseRawAchievement (r : RawAchievement) : Option Achievement :=
  (parseAchievementType r.type).map fun t =>
    ⟨r.id, r.name, r.description, t, r.condition, r.reward_experience,
      r.reward_title, r.unlocked⟩

def parseRawAchievements : List RawAchievement → Option (List Achievement)
  | [] => some []
  | r :: rs =>
    match parseRawAchievement r, parseRawAchievements rs with
    | some a, some rest => some (a :: rest)
    | _, _ => none

/-- The `Player(...)` dataclass construction as performed by `Player.load`,
followed by `__post_init__`: normalisation of scalar fields, then
`_initialize_achievements()` (which may unlock achievements and award their
experience, using the sect bonus passed to the constructor), then
`_set_sect_bonus()`, then the health clamp.  Fields `load` does not pass
keep their dataclass defaults. -/
def Player.construct (name : String) (sect : Sect) (level experience : ℤ)
    (cultivation : CultivationLevel) (skills achievements : List String)
    (current_chapter : String) (mastered challenges : List String)
    (streak total_correct total_attempts : ℤ) (custom_titles : List String)
    (sect_bonus : ℚ) : Player :=
  let p : Player := {
    name := if name = "" then "无名侠客" else name
    sect := sect
    level := if level < 1 then 1 else level
    experience := if experience < 0 then 0 else experience
    cultivation := cultivation
    skills := skills
    achievements := achievements
    achievement_objects := []
    current_chapter := current_chapter
    kubectl_commands_mastered := mastered
    challenges_completed := challenges
    streak := if streak < 0 then 0 else streak
    total_correct := if total_correct < 0 then 0 else total_correct
    total_attempts := if total_attempts < 0 then 0 else total_attempts
    custom_titles := custom_titles
    sect_bonus := sect_bonus
    health := 100
    max_health := 100
    attack := 10
    defense := 5
    wrong_commands := [] }
  let p1 := p.initializeAchievements
  let p2 : Player := { p1 with sect_bonus := sectBonusOf p1.sect }
  if p2.max_health < p2.health then { p2 with health := p2.max_health } else p2

/-- The state of the save file handed to `Player.load`: absent, syntactically
invalid JSON, or a parsed JSON object. -/
inductive SaveFile
  | missing
  | malformed
  | parsed (data : RawSave)

/-- `Player.load`.  `none` models every soft failure: missing file,
`json.JSONDecodeError`, the explicit required-field `ValueError`, the
`Sect(...)` `ValueError`, and an unknown achievement type.  An unknown
cultivation name falls back to `凡人`.  When the save carries
`achievement_objects` they replace the freshly initialised ones; otherwise
`_initialize_achievements()` is called again, a no-op because the
constructor already initialised them. -/
def Player.load (f : SaveFile) : Option Player :=
  match f with
  | .missing => none
  | .malformed => none
  | .parsed d =>
    match d.name, d.sect, d.level, d.experience with
    | some nm, some sectStr, some lvl, some xp =>
      match parseSect sectStr with
      | none => none
      | some sect =>
        let cult := (parseCultivation (d.cultivation.getD "凡人")).getD .fanren
        let p := Player.construct nm sect lvl xp cult (d.skills.getD [])
          (d.achievements.getD []) (d.current_chapter.getD "序章")
          (d.kubectl_commands_mastered.getD []) (d.challenges_completed.getD [])
          (d.streak.getD 0) (d.total_correct.getD 0) (d.total_attempts.getD 0)
          (d.custom_titles.getD []) (d.sect_bonus.getD 1)
        match d.achievement_objects with
        | some objs =>
          match parseRawAchievements objs with
          | none => none
          | some aos => some { p with achievement_objects := aos }
        | none => some p.initializeAchievements
    | _, _, _, _ => none

/-! ## Game engine (`src/kugame/game_engine.py`) -/

/-- The catalog entry consumed by `generate_challenge` (external read-only
data; the Python `syntax` and `example` attributes are renamed
`usageFormat` and `exampleStr` here, keyword clashes aside). -/
structure CommandInfo where
  name : String
  description : String
  usageFormat : String
  exampleStr : String
  kubernetes_concept : String
deriving DecidableEq

/-- The `Challenge` dataclass. -/
structure Challenge where
  challenge_id : String
  title : String
  description : String
  question : String
  expected_command : String
  options : List String
  correct_option_index : ℕ
  hint : String
  reward_exp : ℕ
  difficulty : ℕ
deriving DecidableEq

/-- A monster entity as consumed by the combat methods. -/
structure Monster where
  name : String
  description : String
  health : ℤ
  attack : ℤ
  defense : ℤ
  experience_reward : ℕ
deriving DecidableEq

/-- The mutable state of `GameEngine` (story/command managers are external
collaborators and enter the modelled functions as parameters). -/
structure GameEngine where
  player : Option Player
  current_challenge : Option Challenge
  score : ℚ
  streak : ℤ
  current_monster : Option Monster
  monster_current_health : ℤ
deriving DecidableEq

/-- The result dictionary of `check_answer`; absent keys are `none`. -/
structure EvalResult where
  correct : Bool
  message : String
  streak : Option ℤ
  score : Option ℤ
  unlocked_achievements : Option (List String)
  selected_option : Option ℤ
  correct_option : Option ℤ
  streak_bonus : Option ℚ
  hint : Option String
  expected : Option String
  given : Option String
deriving DecidableEq

/-- The streak-bonus multiplier of `check_answer`:
`min(5.0, 1.0 + self.streak * 0.1)` in binary64 arithmetic, as a function
of the (already incremented) streak. -/
def streakBonus (streak : ℤ) : ℚ :=
  min 5 (fl (1 + fl (fl (streak : ℚ) * fl (1 / 10))))

/-- `GameEngine.check_answer`.  The outer `none` models the uncaught
`ValueError` that `complete_challenge`/`learn_command` raise on an empty
challenge id or command (unreachable for challenges built by
`generate_challenge`).  The non-integer-choice branch is ruled out by
typing `user_choice : ℤ`. -/
def GameEngine.check_answer (st : GameEngine) (user_choice : ℤ) :
    Option (EvalResult × GameEngine) :=
  match st.current_challenge with
  | none =>
    some ({ correct := false, message := "没有正在进行的挑战", streak := none,
            score := none, unlocked_achievements := none, selected_option := none,
            correct_option := none, streak_bonus := none, hint := none,
            expected := none, given := none }, st)
  | some ch =>
    let user_index := user_choice - 1
    if user_index < 0 ∨ (ch.options.length : ℤ) ≤ user_index then
      some ({ correct := false,
              message := "✗ 无效选择，请选择1-" ++ toString ch.options.length ++ "之间的数字",
              streak := some st.streak, score := some (pyTrunc st.score),
              unlocked_achievements := some [], selected_option := none,
              correct_option := none, streak_bonus := none, hint := none,
              expected := none, given := none }, st)
    else
      let is_correct : Bool := decide (user_index = (ch.correct_option_index : ℤ))
      let expected := ch.expected_command
      let selected := ch.options.getD user_index.toNat ""
      if is_correct then
        let streak1 := st.streak + 1
        let sb := streakBonus streak1
        let score1 := fl (st.score + fl (fl (ch.reward_exp : ℚ) * sb))
        let res (unlocked : List String) : EvalResult :=
          { correct := true, streak := some streak1, score := some (pyTrunc score1),
            unlocked_achievements := some unlocked,
            selected_option := some (user_index + 1),
            correct_option := some ((ch.correct_option_index : ℤ) + 1),
            streak_bonus := some sb,
            message := "✓ 回答正确！获得 " ++ toString ch.reward_exp ++ " 经验值",
            hint := none, expected := none, given := none }
        match st.player with
        | some p =>
          match p.complete_challenge ch.challenge_id with
          | none => none
          | some c1 =>
            match c1.1.learn_command expected with
            | none => none
            | some c2 =>
              let p3 := (Player.gainExpPos c2.1 (ch.reward_exp : ℤ)).1
              let p4 := p3.update_streak true
              let r5 := p4.check_and_unlock_achievements
              let p6 : Player := { r5.1 with streak := streak1 }
              some (res r5.2,
                { st with player := some p6, streak := streak1, score := score1 })
        | none =>
          some (res [], { st with streak := streak1, score := score1 })
      else
        let res : EvalResult :=
          { correct := false, streak := some 0, score := some (pyTrunc st.score),
            unlocked_achievements := some [],
            selected_option := some (user_index + 1),
            correct_option := some ((ch.correct_option_index : ℤ) + 1),
            streak_bonus := none,
            message := "✗ 回答错误。正确答案是选项 " ++
              toString ((ch.correct_option_index : ℤ) + 1) ++ ": " ++ expected,
            hint := some ch.hint, expected := some expected, given := some selected }
        match st.player with
        | some p =>
          let p1 := p.update_streak false
          let p2 : Player := { p1 with streak := 0 }
          let p3 : Player := { p2 with wrong_commands := p2.wrong_commands ++ [selected] }
          some (res, { st with player := some p3, streak := 0 })
        | none =>
          some (res, { st with streak := 0 })

/-- Python `sub in s` substring containment over character lists. -/
def containsSub (sub : List Char) : List Char → Bool
  | [] => sub.isEmpty
  | c :: cs => (sub.isPrefixOf (c :: cs)) || containsSub sub cs

/-- `GameEngine.generate_challenge`, with its random draws as parameters:
`target` is the `random.choice` from the chapter's commands, `randNum` the
`random.randint(1000, 9999)` suffix, `sampleDraw` the `random.sample` of 3
distractors (used only when the filtered pool has at least 3 entries), and
`shuffle` the `random.shuffle` effect, whose only contract is returning a
permutation of its input.  `lookup` is `command_manager.get_command(target)`
and `commandKeys` is `list(command_manager.commands.keys())`.  The
difficulty ordinal parse models `int()` on the digit tail (`getD 0` is only
reached for ids the story never produces). -/
def generate_challenge (chapterIdValue : String) (chapterRewardExp : ℕ)
    (commands : List String) (commandKeys : List String)
    (lookup : Option CommandInfo) (target : String) (randNum : ℕ)
    (sampleDraw : List String) (shuffle : List String → List String) :
    Option Challenge :=
  if commands.isEmpty then none
  else
    match lookup with
    | none => none
    | some info =>
      let challenge_id := chapterIdValue ++ "_challenge_" ++ toString randNum
      let chapterNumber : ℕ :=
        if containsSub "chapter_".data chapterIdValue.data then
          ((pyIntParse ((splitChar chapterIdValue.data '_').getLastD [])).getD 0).toNat
        else 0
      let difficulty := min 10 (chapterNumber + 1)
      let pool := commandKeys.filter (fun c => c ≠ target)
      let distractors := if 3 ≤ pool.length then sampleDraw else pool
      let options := shuffle ([target] ++ distractors)
      let correct_index := options.indexOf target
      some { challenge_id := challenge_id,
             title := "修炼挑战 - " ++
               (if info.kubernetes_concept ≠ "" then info.kubernetes_concept else info.name),
             description := "掌握" ++ info.description ++ "的技巧",
             question := "如何" ++ info.description ++ "？",
             expected_command := target,
             options := options,
             correct_option_index := correct_index,
             hint := "使用 " ++ info.usageFormat ++ " 格式",
             reward_exp := chapterRewardExp,
             difficulty := difficulty }

/-- The result dictionary of the combat methods. -/
structure CombatResult where
  player_health : Option ℤ
  monster_health : Option ℤ
  damage : Option ℤ
  monster_damage : Option ℤ
  message : String
  status : String
  streak : Option ℤ
  exp_gained : Option ℤ
deriving DecidableEq

/-- `GameEngine.player_attack` together with `_monster_counter_attack` and
`_handle_combat_victory`.  `none` models the `ValueError` raised when no
player is initialised. -/
def GameEngine.player_attack (st : GameEngine) (monster : Monster)
    (answer_correct : Bool) : Option (CombatResult × GameEngine) :=
  match st.player with
  | none => none
  | some p =>
    let damage := if answer_correct then max 1 (p.attack * 2 - monster.defense)
                  else max 1 (Int.fdiv p.attack 2 - monster.defense)
    let streak1 := if answer_correct then st.streak + 1 else 0
    let attackMessage := if answer_correct then "你回答正确！发动了强力攻击！"
                         else "你回答错误！攻击威力大减！"
    let mch := max 0 (st.monster_current_health - damage)
    let st1 : GameEngine := { st with streak := streak1, monster_current_health := mch }
    if mch ≤ 0 then
      let p1 := (Player.gainExpPos p (monster.experience_reward : ℤ)).1
      some ({ player_health := some p1.health, monster_health := some 0,
              damage := some damage, monster_damage := some 0,
              message := attackMessage ++ "\n你对" ++ monster.name ++ "造成了" ++
                toString damage ++ "点伤害！\n" ++ monster.name ++
                "被击败了！\n你获得了" ++ toString monster.experience_reward ++ "经验值！",
              status := "combat_won", exp_gained := some (monster.experience_reward : ℤ),
              streak := some streak1 },
            { st1 with player := some p1, current_monster := none })
    else
      let monsterDamage := max 1 (monster.attack - p.defense)
      let p1 : Player := { p with health := max 0 (p.health - monsterDamage) }
      let st2 : GameEngine := { st1 with player := some p1 }
      if p1.health ≤ 0 then
        some ({ player_health := some p1.health, monster_health := some mch,
                damage := some damage, monster_damage := some monsterDamage,
                message := attackMessage ++ "\n" ++ monster.name ++ "对你造成了" ++
                  toString monsterDamage ++ "点伤害！\n你被击败了！",
                status := "combat_lost", streak := some streak1,
                exp_gained := none }, st2)
      else
        some ({ player_health := some p1.health, monster_health := some mch,
                damage := some damage, monster_damage := some monsterDamage,
                message := attackMessage ++ "\n你对" ++ monster.name ++ "造成了" ++
                  toString damage ++ "点伤害！\n" ++ monster.name ++ "对你造成了" ++
                  toString monsterDamage ++ "点伤害！",
                status := "combat_ongoing", streak := some streak1,
                exp_gained := none }, st2)

/-! ## Supporting lemmas -/

theorem requiredExp_pos {lvl : ℤ} (h : 1 ≤ lvl) : 1 ≤ requiredExp lvl := by
  rw [requiredExp]
  apply pyTrunc_one_le
  apply fl_one_le
  have h1 : (1 : ℚ) ≤ (3 / 2 : ℚ) ^ (lvl - 1) :=
    one_le_zpow₀ (by norm_num) (by omega)
  have h2 : (1 : ℚ) ≤ fl ((3 / 2 : ℚ) ^ (lvl - 1)) := fl_one_le h1
  linarith

theorem requiredExp_mono {a b : ℤ} (ha : 1 ≤ a) (hab : a ≤ b) :
    requiredExp a ≤ requiredExp b := by
  have hx : (3 / 2 : ℚ) ^ (a - 1) ≤ (3 / 2 : ℚ) ^ (b - 1) :=
    zpow_le_zpow_right₀ (by norm_num) (by omega)
  have hx0 : (1 : ℚ) ≤ (3 / 2 : ℚ) ^ (a - 1) :=
    one_le_zpow₀ (by norm_num) (by omega)
  have hfl : fl ((3 / 2 : ℚ) ^ (a - 1)) ≤ fl ((3 / 2 : ℚ) ^ (b - 1)) :=
    fl_mono_nonneg (by linarith) hx
  have hfl0 : (0 : ℚ) ≤ fl ((3 / 2 : ℚ) ^ (a - 1)) := fl_nonneg (by linarith)
  rw [requiredExp, requiredExp]
  apply pyTrunc_mono_nonneg (fl_nonneg (by linarith))
  apply fl_mono_nonneg (by linarith)
  linarith

theorem levelUpGo_spec : ∀ (fuel : ℕ) (lvl e : ℤ), 1 ≤ lvl → 0 ≤ e → e < (fuel : ℤ) →
    1 ≤ (levelUpGo fuel lvl e).1 ∧ lvl ≤ (levelUpGo fuel lvl e).1 ∧
      0 ≤ (levelUpGo fuel lvl e).2 ∧
      (levelUpGo fuel lvl e).2 < requiredExp (levelUpGo fuel lvl e).1 := by
  intro fuel
  induction fuel with
  | zero =>
    intro lvl e h1 h2 h3
    exact absurd h3 (by push_cast; omega)
  | succ f ih =>
    intro lvl e h1 h2 h3
    rw [levelUpGo]
    split
    · rename_i hguard
      have hreq : 1 ≤ requiredExp lvl := requiredExp_pos h1
      have := ih (lvl + 1) (e - requiredExp lvl) (by omega) (by omega) (by push_cast at h3 ⊢; omega)
      exact ⟨this.1, by omega, this.2.2⟩
    · rename_i hguard
      refine ⟨h1, le_refl _, h2, ?_⟩
      show e < requiredExp lvl
      omega

theorem levelUpGo_lt : ∀ (fuel : ℕ) (lvl e : ℤ), 1 ≤ lvl → 0 ≤ e → e < (fuel : ℤ) →
    requiredExp lvl ≤ e → lvl < (levelUpGo fuel lvl e).1 := by
  intro fuel
  cases fuel with
  | zero =>
    intro lvl e h1 h2 h3
    exact absurd h3 (by push_cast; omega)
  | succ f =>
    intro lvl e h1 h2 h3 hguard
    rw [levelUpGo, if_pos hguard]
    have hreq : 1 ≤ requiredExp lvl := requiredExp_pos h1
    have := levelUpGo_spec f (lvl + 1) (e - requiredExp lvl) (by omega) (by omega)
      (by push_cast at h3 ⊢; omega)
    omega

/-- `level_up` and `gainExpPos` only touch `level`, `experience` and
`cultivation`. -/
theorem level_up_shape (p : Player) :
    ∃ lvl xp cult, p.level_up = { p with level := lvl, experience := xp, cultivation := cult } := by
  rw [Player.level_up]
  split
  · exact ⟨_, _, _, rfl⟩
  · exact ⟨p.level, p.experience, p.cultivation, rfl⟩

theorem gainExpPos_shape (p : Player) (exp : ℤ) :
    ∃ lvl xp cult,
      (p.gainExpPos exp).1 = { p with level := lvl, experience := xp, cultivation := cult } := by
  rw [Player.gainExpPos]
  split
  · obtain ⟨l, x, c, h⟩ := level_up_shape
      { p with experience := p.experience + pyTrunc (fl (fl (exp : ℚ) * p.sect_bonus)) }
    exact ⟨l, x, c, h⟩
  · exact ⟨_, _, _, rfl⟩

theorem gainExpPos_stats (p : Player) (exp : ℤ) :
    ((p.gainExpPos exp).1).stats = p.stats := by
  obtain ⟨l, x, c, h⟩ := gainExpPos_shape p exp
  rw [h]
  rfl

/-- The loop wrapper `level_up` on a valid profile. -/
theorem level_up_spec (p : Player) (hlvl : 1 ≤ p.level) (hexp : 0 ≤ p.experience) :
    1 ≤ p.level_up.level ∧ p.level ≤ p.level_up.level ∧
      0 ≤ p.level_up.experience ∧
      p.level_up.experience < requiredExp p.level_up.level ∧
      (requiredExp p.level ≤ p.experience → p.level < p.level_up.level) := by
  rw [Player.level_up]
  split
  · rename_i hg
    have hs := levelUpGo_spec (p.experience.toNat + 1) p.level p.experience hlvl hexp (by omega)
    have hl := levelUpGo_lt (p.experience.toNat + 1) p.level p.experience hlvl hexp (by omega) hg
    exact ⟨hs.1, hs.2.1, hs.2.2.1, hs.2.2.2, fun _ => hl⟩
  · rename_i hg
    exact ⟨hlvl, le_refl _, hexp, by omega, fun hc => absurd hc hg⟩

/-- The core behaviour of `gainExpPos` on a valid profile: the added amount
is `int(exp * bonus) ≥ 0`, the resulting experience is a proper remainder,
and the boolean reports precisely whether the level grew. -/
theorem gainExpPos_bounds (p : Player) (exp : ℤ) (hlvl : 1 ≤ p.level)
    (hexp : 0 ≤ p.experience) (hb : 0 ≤ p.sect_bonus) (he : 0 ≤ exp) :
    0 ≤ ((p.gainExpPos exp).1).experience ∧
      ((p.gainExpPos exp).1).experience < requiredExp ((p.gainExpPos exp).1).level ∧
      1 ≤ ((p.gainExpPos exp).1).level ∧ p.level ≤ ((p.gainExpPos exp).1).level ∧
      ((p.gainExpPos exp).2 = true ↔ p.level < ((p.gainExpPos exp).1).level) := by
  have hadd : 0 ≤ pyTrunc (fl (fl (exp : ℚ) * p.sect_bonus)) := by
    apply pyTrunc_nonneg
    apply fl_nonneg
    exact mul_nonneg (fl_nonneg (by exact_mod_cast he)) hb
  have hspec := level_up_spec
    { p with experience := p.experience + pyTrunc (fl (fl (exp : ℚ) * p.sect_bonus)) }
    hlvl (by show 0 ≤ p.experience + _; omega)
  rw [Player.gainExpPos]
  split
  · rename_i hguard
    refine ⟨hspec.2.2.1, hspec.2.2.2.1, hspec.1, hspec.2.1, ?_⟩
    constructor
    · intro _
      exact hspec.2.2.2.2 hguard
    · intro _
      rfl
  · rename_i hguard
    refine ⟨by show 0 ≤ p.experience + _; omega, ?_, hlvl, le_refl _, ?_⟩
    · show p.experience + pyTrunc (fl (fl (exp : ℚ) * p.sect_bonus)) < requiredExp p.level
      omega
    · constructor
      · intro hc
        exact absurd hc (by simp)
      · intro hc
        exact absurd hc (by show ¬ p.level < p.level; omega)

/-! ## Claim C3: the experience threshold -/

/-- The spec's contract for the threshold, in exact rational arithmetic:
`floor(100 * 1.5^(level-1))`. -/
def requiredExpExact (level : ℤ) : ℤ := ⌊(100 : ℚ) * (3 / 2 : ℚ) ^ (level - 1)⌋

/-- Claim C3, counterexample: at level 77 the binary64 computation
`int(100 * (1.5 ** 76))` of `_calculate_required_exp` yields
2415103171470709, one more than the exact `floor(100 * 1.5^76)`, so the
claimed equality (in exact rational arithmetic) fails. -/
theorem c3_required_exp_counterexample :
    requiredExp 77 ≠ requiredExpExact 77 := by decide

/-- Claim C3 (amended): for every `1 ≤ level ≤ 76` the threshold computed by
`_calculate_required_exp` equals `floor(100 * 1.5^(level-1))` in exact
rational arithmetic (the float computation is exact there, and first
deviates at level 77), and the function is monotonically non-decreasing in
`level` for all `level ≥ 1`. -/
theorem c3_required_exp_amended (level : ℤ) (h1 : 1 ≤ level) :
    (level ≤ 76 → requiredExp level = requiredExpExact level) ∧
      ∀ m : ℤ, level ≤ m → requiredExp level ≤ requiredExp m := by
  constructor
  · intro h76
    obtain ⟨n, hn76, rfl⟩ : ∃ n : ℕ, n < 76 ∧ level = (n : ℤ) + 1 :=
      ⟨(level - 1).toNat, by omega, by omega⟩
    have hall : ∀ n ∈ Finset.range 76,
        requiredExp ((n : ℤ) + 1) = requiredExpExact ((n : ℤ) + 1) := by decide
    exact hall n (Finset.mem_range.2 hn76)
  · intro m hm
    exact requiredExp_mono h1 hm

theorem c3_required_exp_amended_witness :
    (1 : ℤ) ≤ 5 ∧ (((5 : ℤ) ≤ 76 → requiredExp 5 = requiredExpExact 5) ∧
      ∀ m : ℤ, 5 ≤ m → requiredExp 5 ≤ requiredExp m) :=
  ⟨by norm_num, c3_required_exp_amended 5 (by norm_num)⟩

/-! ## Claim C2: gain_experience -/

theorem sectBonusOf_nonneg (s : Sect) : 0 ≤ sectBonusOf s := by
  cases s <;> decide

/-- A concrete 玄天宗 profile (sect bonus exactly 1.0) used for concrete
evaluations. -/
def c2Profile : Player :=
  { name := "测试", sect := .xuantian, level := 1, experience := 0,
    cultivation := .fanren, skills := [], achievements := [],
    achievement_objects := predefinedAchievements, current_chapter := "序章",
    kubectl_commands_mastered := [], challenges_completed := [], streak := 0,
    total_correct := 0, total_attempts := 0, custom_titles := [],
    sect_bonus := 1, health := 100, max_health := 100, attack := 10,
    defense := 5, wrong_commands := [] }

/-- Claim C2: on a profile satisfying the model invariants (`level ≥ 1`,
`experience ≥ 0`, sect bonus as assigned from the sect) and an amount
`≥ 0`, `gain_experience` succeeds and leaves `0 ≤ experience <
requiredExp level`, and it returns `true` exactly when the level rose.
The final conjunct shows a single call jumping two levels: on `c2Profile`
(level 1, experience 0, bonus 1.0) a 250-point reward ends at level 3
with experience 0. -/
theorem c2_gain_experience_spec (p : Player) (amount : ℤ) (hlvl : 1 ≤ p.level)
    (hexp : 0 ≤ p.experience) (hb : p.sect_bonus = sectBonusOf p.sect)
    (ha : 0 ≤ amount) :
    (∃ q lifted, p.gain_experience amount = some (q, lifted) ∧
      0 ≤ q.experience ∧ q.experience < requiredExp q.level ∧
      (lifted = true ↔ p.level < q.level)) ∧
    (c2Profile.gain_experience 250).map (fun r => (r.1.level, r.1.experience, r.2)) =
      some (3, 0, true) := by
  constructor
  · rw [Player.gain_experience, if_neg (by omega)]
    have hbnn : 0 ≤ p.sect_bonus := hb ▸ sectBonusOf_nonneg p.sect
    have hcore := gainExpPos_bounds p amount hlvl hexp hbnn ha
    exact ⟨(p.gainExpPos amount).1, (p.gainExpPos amount).2, rfl,
      hcore.1, hcore.2.1, hcore.2.2.2.2⟩
  · decide

theorem c2_gain_experience_spec_witness :
    ((1 : ℤ) ≤ c2Profile.level ∧ (0 : ℤ) ≤ c2Profile.experience ∧
      c2Profile.sect_bonus = sectBonusOf c2Profile.sect ∧ (0 : ℤ) ≤ 130) ∧
    ((∃ q lifted, c2Profile.gain_experience 130 = some (q, lifted) ∧
      0 ≤ q.experience ∧ q.experience < requiredExp q.level ∧
      (lifted = true ↔ c2Profile.level < q.level)) ∧
    (c2Profile.gain_experience 250).map (fun r => (r.1.level, r.1.experience, r.2)) =
      some (3, 0, true)) :=
  ⟨⟨by decide, by decide, by decide, by decide⟩,
    c2_gain_experience_spec c2Profile 130 (by decide) (by decide) (by decide) (by decide)⟩

/-! ## Claim C5: out-of-range answers mutate nothing -/

/-- Claim C5: with an active challenge and a 1-based choice outside
`[1, |options|]`, `check_answer` returns a soft failure (`correct = false`
with the invalid-selection message) and the engine state — hence the
profile with its streak, totals, mastered commands, completed challenges,
experience and level — is returned exactly as it was. -/
theorem c5_check_answer_out_of_range (st : GameEngine) (ch : Challenge) (choice : ℤ)
    (hch : st.current_challenge = some ch)
    (hout : choice < 1 ∨ (ch.options.length : ℤ) < choice) :
    st.check_answer choice =
      some ({ correct := false,
              message := "✗ 无效选择，请选择1-" ++ toString ch.options.length ++ "之间的数字",
              streak := some st.streak, score := some (pyTrunc st.score),
              unlocked_achievements := some [], selected_option := none,
              correct_option := none, streak_bonus := none, hint := none,
              expected := none, given := none }, st) := by
  simp only [GameEngine.check_answer, hch]
  rw [if_pos (by omega : choice - 1 < 0 ∨ (ch.options.length : ℤ) ≤ choice - 1)]

/-- A concrete challenge and engine state used to instantiate the
engine-level theorems. -/
def c5Challenge : Challenge :=
  { challenge_id := "prologue_challenge_1234", title := "t", description := "d",
    question := "q", expected_command := "kubectl get pods",
    options := ["kubectl get pods", "kubectl get nodes"],
    correct_option_index := 0, hint := "h", reward_exp := 80, difficulty := 1 }

def c5Engine : GameEngine :=
  { player := some c2Profile, current_challenge := some c5Challenge,
    score := 0, streak := 0, current_monster := none, monster_current_health := 20 }

theorem c5_check_answer_out_of_range_witness :
    (c5Engine.current_challenge = some c5Challenge ∧
      ((3 : ℤ) < 1 ∨ ((c5Challenge.options.length : ℕ) : ℤ) < 3)) ∧
    c5Engine.check_answer 3 =
      some ({ correct := false,
              message := "✗ 无效选择，请选择1-" ++ toString c5Challenge.options.length ++ "之间的数字",
              streak := some c5Engine.streak, score := some (pyTrunc c5Engine.score),
              unlocked_achievements := some [], selected_option := none,
              correct_option := none, streak_bonus := none, hint := none,
              expected := none, given := none }, c5Engine) :=
  ⟨⟨rfl, by decide⟩,
    c5_check_answer_out_of_range c5Engine c5Challenge 3 rfl (by decide)⟩

/-! ## Claim C8: combat damage formulas -/

/-- Claim C8: `player_attack` deals `max(1, attack*2 - monster.defense)` on
a correct answer and `max(1, attack // 2 - monster.defense)` (floor
division) on an incorrect one; when the monster survives, its counter
deals `max(1, monster.attack - defense)` and the player's health is
floored at 0.  The last conjunct pins the concrete numbers 17 and 2 for
attack 10 versus defense 3. -/
theorem c8_player_attack_damage (st : GameEngine) (p : Player) (monster : Monster)
    (answer_correct : Bool) (hp : st.player = some p) :
    (∃ res st2, st.player_attack monster answer_correct = some (res, st2) ∧
      res.damage = some (if answer_correct then max 1 (p.attack * 2 - monster.defense)
                         else max 1 (Int.fdiv p.attack 2 - monster.defense)) ∧
      (0 < st.monster_current_health -
          (if answer_correct then max 1 (p.attack * 2 - monster.defense)
           else max 1 (Int.fdiv p.attack 2 - monster.defense)) →
        res.monster_damage = some (max 1 (monster.attack - p.defense)) ∧
        ∃ p1, st2.player = some p1 ∧
          p1.health = max 0 (p.health - max 1 (monster.attack - p.defense)))) ∧
    (p.attack = 10 → monster.defense = 3 →
      max 1 (p.attack * 2 - monster.defense) = 17 ∧
      max 1 (Int.fdiv p.attack 2 - monster.defense) = 2) := by
  constructor
  · cases answer_correct <;>
      simp only [GameEngine.player_attack, hp, if_true, if_false, Bool.false_eq_true,
        reduceIte] <;>
      [skip; skip] <;>
      first
      | (by_cases hwin : max 0 (st.monster_current_health -
            max 1 (Int.fdiv p.attack 2 - monster.defense)) ≤ 0
         case pos =>
           rw [if_pos hwin]
           refine ⟨_, _, rfl, rfl, ?_⟩
           intro hsurv
           omega
         case neg =>
           rw [if_neg hwin]
           by_cases hlost : max 0 (p.health - max 1 (monster.attack - p.defense)) ≤ 0
           · rw [if_pos hlost]
             exact ⟨_, _, rfl, rfl, fun _ => ⟨rfl, _, rfl, rfl⟩⟩
           · rw [if_neg hlost]
             exact ⟨_, _, rfl, rfl, fun _ => ⟨rfl, _, rfl, rfl⟩⟩)
      | (by_cases hwin : max 0 (st.monster_current_health -
            max 1 (p.attack * 2 - monster.defense)) ≤ 0
         case pos =>
           rw [if_pos hwin]
           refine ⟨_, _, rfl, rfl, ?_⟩
           intro hsurv
           omega
         case neg =>
           rw [if_neg hwin]
           by_cases hlost : max 0 (p.health - max 1 (monster.attack - p.defense)) ≤ 0
           · rw [if_pos hlost]
             exact ⟨_, _, rfl, rfl, fun _ => ⟨rfl, _, rfl, rfl⟩⟩
           · rw [if_neg hlost]
             exact ⟨_, _, rfl, rfl, fun _ => ⟨rfl, _, rfl, rfl⟩⟩)
  · intro h10 h3
    rw [h10, h3]
    constructor
    · decide
    · decide

def c8Monster : Monster :=
  { name := "妖兽", description := "m", health := 20, attack := 8, defense := 3,
    experience_reward := 50 }

theorem c8_player_attack_damage_witness :
    c5Engine.player = some c2Profile ∧
    ((∃ res st2, c5Engine.player_attack c8Monster true = some (res, st2) ∧
      res.damage = some (if true then max 1 (c2Profile.attack * 2 - c8Monster.defense)
                         else max 1 (Int.fdiv c2Profile.attack 2 - c8Monster.defense)) ∧
      (0 < c5Engine.monster_current_health -
          (if true then max 1 (c2Profile.attack * 2 - c8Monster.defense)
           else max 1 (Int.fdiv c2Profile.attack 2 - c8Monster.defense)) →
        res.monster_damage = some (max 1 (c8Monster.attack - c2Profile.defense)) ∧
        ∃ p1, st2.player = some p1 ∧
          p1.health = max 0 (c2Profile.health - max 1 (c8Monster.attack - c2Profile.defense)))) ∧
    (c2Profile.attack = 10 → c8Monster.defense = 3 →
      max 1 (c2Profile.attack * 2 - c8Monster.defense) = 17 ∧
      max 1 (Int.fdiv c2Profile.attack 2 - c8Monster.defense) = 2)) :=
  ⟨rfl, c8_player_attack_damage c5Engine c2Profile c8Monster true rfl⟩

/-! ## Claim C9: load fails softly -/

/-- Claim C9: `Player.load` yields no profile when the file is absent, when
its JSON does not parse, or when any of the required fields `name`, `sect`,
`level`, `experience` is missing — in each case `None` is returned rather
than a partially populated profile or an uncaught exception (the model's
`load` is total, so no other outcome exists on these inputs). -/
theorem c9_load_soft_failure :
    Player.load .missing = none ∧ Player.load .malformed = none ∧
      ∀ d : RawSave,
        (d.name = none ∨ d.sect = none ∨ d.level = none ∨ d.experience = none) →
        Player.load (.parsed d) = none := by
  refine ⟨rfl, rfl, ?_⟩
  intro d hd
  rcases hd with h | h | h | h
  · simp only [Player.load, h]
  · rcases hn : d.name with _ | nm <;> simp only [Player.load, h, hn]
  · rcases hn : d.name with _ | nm <;> rcases hs : d.sect with _ | ss <;>
      simp only [Player.load, h, hn, hs]
  · rcases hn : d.name with _ | nm <;> rcases hs : d.sect with _ | ss <;>
      rcases hl : d.level with _ | lv <;> simp only [Player.load, h, hn, hs, hl]

/-- A save object missing the required `experience` field. -/
def c9BadSave : RawSave :=
  { name := some "侠客", sect := some "玄天宗", level := some 5, experience := none,
    cultivation := none, skills := none, achievements := none,
    achievement_objects := none, current_chapter := none,
    kubectl_commands_mastered := none, challenges_completed := none,
    streak := none, total_correct := none, total_attempts := none,
    custom_titles := none, sect_bonus := none }

theorem c9_load_soft_failure_witness :
    (c9BadSave.name = none ∨ c9BadSave.sect = none ∨ c9BadSave.level = none ∨
      c9BadSave.experience = none) ∧
    Player.load (.parsed c9BadSave) = none :=
  ⟨Or.inr (Or.inr (Or.inr rfl)),
    c9_load_soft_failure.2.2 c9BadSave (Or.inr (Or.inr (Or.inr rfl)))⟩

/-! ## Claim C6: the streak-bonus multiplier -/

/-- Claim C6: on a correct answer `check_answer` reports (and applies to the
session score) the multiplier `streakBonus` of the post-increment streak,
which is `min(5.0, 1.0 + streak * 0.1)` in binary64 arithmetic; at streak
values 0, 1, 10, 39, 40, 100 it equals exactly the binary64 values of the
decimal literals 1.0, 1.1, 2.0, 4.9, 5.0, 5.0 (the float computation lands
exactly on those doubles), and the 5.0 cap is first reached at streak 40
(below 40 the multiplier is strictly smaller than 5). -/
theorem c6_streak_bonus_values :
    (∀ (st : GameEngine) (ch : Challenge) (choice : ℤ) res st2,
      st.current_challenge = some ch →
      choice = (ch.correct_option_index : ℤ) + 1 →
      ch.correct_option_index < ch.options.length →
      st.check_answer choice = some (res, st2) →
      res.streak_bonus = some (streakBonus (st.streak + 1))) ∧
    streakBonus 0 = 1 ∧ streakBonus 1 = fl (11 / 10) ∧ streakBonus 10 = 2 ∧
    streakBonus 39 = fl (49 / 10) ∧ streakBonus 40 = 5 ∧ streakBonus 100 = 5 ∧
    (∀ s : ℤ, 0 ≤ s → s < 40 → streakBonus s < 5) := by
  refine ⟨?_, by decide, by decide, by decide, by decide, by decide, by decide, ?_⟩
  · intro st ch choice res st2 hch hchoice hidx heq
    subst hchoice
    simp only [GameEngine.check_answer, hch] at heq
    rw [if_neg (by omega :
      ¬((ch.correct_option_index : ℤ) + 1 - 1 < 0 ∨
        (ch.options.length : ℤ) ≤ (ch.correct_option_index : ℤ) + 1 - 1))] at heq
    rw [if_pos (by simp :
      (decide ((ch.correct_option_index : ℤ) + 1 - 1 = (ch.correct_option_index : ℤ))) = true)] at heq
    split at heq
    · split at heq
      · exact absurd heq (by simp)
      · split at heq
        · exact absurd heq (by simp)
        · simp only [Option.some.injEq, Prod.mk.injEq] at heq
          rw [← heq.1]
    · simp only [Option.some.injEq, Prod.mk.injEq] at heq
      rw [← heq.1]
  · intro s h0 h40
    obtain ⟨n, hn, rfl⟩ : ∃ n : ℕ, n < 40 ∧ s = (n : ℤ) := ⟨s.toNat, by omega, by omega⟩
    have hall : ∀ n ∈ Finset.range 40, streakBonus ((n : ℕ) : ℤ) < 5 := by decide
    exact hall n (Finset.mem_range.2 hn)

theorem c6_streak_bonus_values_witness :
    (c5Engine.current_challenge = some c5Challenge ∧
      (1 : ℤ) = (c5Challenge.correct_option_index : ℤ) + 1 ∧
      c5Challenge.correct_option_index < c5Challenge.options.length) ∧
    (c5Engine.check_answer 1).map (fun r => r.1.streak_bonus) =
      some (some (streakBonus (c5Engine.streak + 1))) := by
  refine ⟨⟨rfl, by decide, by decide⟩, ?_⟩
  rcases hval : c5Engine.check_answer 1 with _ | ⟨res, st2⟩
  · exact absurd hval (by decide)
  · rw [Option.map_some']
    rw [c6_streak_bonus_values.1 c5Engine c5Challenge 1 res st2 rfl (by decide) (by decide) hval]

/-! ## Claim C4: challenge generation -/

/-- Claim C4: under the contracts of the random draws (`target` drawn from
a non-empty pool, a successful catalog lookup, `random.sample` returning 3
distinct pool elements when the pool allows it, `random.shuffle` returning
a permutation), `generate_challenge` produces a challenge whose options
contain `expected_command` exactly once, whose `correct_option_index`
points at that unique occurrence, and which, when the whole catalog holds
fewer than 4 commands, still exists with fewer than 4 options. -/
theorem c4_generate_challenge (chapterIdValue : String) (rewardExp : ℕ)
    (commands commandKeys : List String) (info : CommandInfo) (target : String)
    (randNum : ℕ) (sampleDraw : List String) (shuffle : List String → List String)
    (hcmds : commands ≠ [])
    (hkeys : commandKeys.Nodup)
    (htarget : target ∈ commandKeys)
    (hsample : 3 ≤ (commandKeys.filter (fun c => c ≠ target)).length →
      sampleDraw.Nodup ∧
        ∀ x ∈ sampleDraw, x ∈ commandKeys.filter (fun c => c ≠ target))
    (hshuffle : ∀ l, (shuffle l).Perm l) :
    ∃ ch, generate_challenge chapterIdValue rewardExp commands commandKeys
        (some info) target randNum sampleDraw shuffle = some ch ∧
      ch.expected_command = target ∧
      ch.options.count target = 1 ∧
      ch.options[ch.correct_option_index]? = some target ∧
      (∀ j : ℕ, ch.options[j]? = some target → j = ch.correct_option_index) ∧
      (commandKeys.length < 4 → ch.options.length < 4) := by
  have hpoolmem : ∀ x ∈ commandKeys.filter (fun c => c ≠ target), x ≠ target := by
    intro x hx
    have := List.of_mem_filter hx
    exact of_decide_eq_true this
  have hpoolnodup : (commandKeys.filter (fun c => c ≠ target)).Nodup :=
    hkeys.filter _
  have hDnotarget : ∀ x ∈ (if 3 ≤ (commandKeys.filter (fun c => c ≠ target)).length
      then sampleDraw else commandKeys.filter (fun c => c ≠ target)), x ≠ target := by
    split
    · rename_i h3
      intro x hx
      exact hpoolmem x ((hsample h3).2 x hx)
    · exact hpoolmem
  have hDnodup : (if 3 ≤ (commandKeys.filter (fun c => c ≠ target)).length
      then sampleDraw else commandKeys.filter (fun c => c ≠ target)).Nodup := by
    split
    · rename_i h3
      exact (hsample h3).1
    · exact hpoolnodup
  set D := (if 3 ≤ (commandKeys.filter (fun c => c ≠ target)).length
      then sampleDraw else commandKeys.filter (fun c => c ≠ target)) with hD
  have hperm : (shuffle ([target] ++ D)).Perm (target :: D) := hshuffle _
  have hconsnodup : (target :: D).Nodup :=
    List.nodup_cons.2 ⟨fun hmem => hDnotarget target hmem rfl, hDnodup⟩
  have hnodup : (shuffle ([target] ++ D)).Nodup := hperm.nodup_iff.2 hconsnodup
  have hmem : target ∈ shuffle ([target] ++ D) :=
    hperm.mem_iff.2 (List.mem_cons_self _ _)
  have hcount : (shuffle ([target] ++ D)).count target = 1 := by
    rw [hperm.count_eq, List.count_cons_self,
      List.count_eq_zero_of_not_mem (fun hmem2 => hDnotarget target hmem2 rfl)]
  refine ⟨{ challenge_id := chapterIdValue ++ "_challenge_" ++ toString randNum,
            title := "修炼挑战 - " ++
              (if info.kubernetes_concept ≠ "" then info.kubernetes_concept else info.name),
            description := "掌握" ++ info.description ++ "的技巧",
            question := "如何" ++ info.description ++ "？",
            expected_command := target,
            options := shuffle ([target] ++ D),
            correct_option_index := (shuffle ([target] ++ D)).indexOf target,
            hint := "使用 " ++ info.usageFormat ++ " 格式",
            reward_exp := rewardExp,
            difficulty := min 10 ((if containsSub "chapter_".data chapterIdValue.data then
              ((pyIntParse ((splitChar chapterIdValue.data '_').getLastD [])).getD 0).toNat
              else 0) + 1) }, ?_, rfl, hcount, ?_, ?_, ?_⟩
  · simp only [generate_challenge,
      if_neg (by simpa [List.isEmpty_iff] using hcmds : ¬ commands.isEmpty = true)]
  · exact List.getElem?_indexOf hmem
  · intro j hj
    have hj2 : (shuffle ([target] ++ D))[j]? = some target := hj
    have hidx := List.getElem?_indexOf (l := shuffle ([target] ++ D)) hmem
    have hjlen : j < (shuffle ([target] ++ D)).length := by
      by_contra hge
      rw [List.getElem?_eq_none (by omega)] at hj2
      exact absurd hj2 (by simp)
    show j = (shuffle ([target] ++ D)).indexOf target
    exact List.getElem?_inj hjlen hnodup (hj2.trans hidx.symm)
  · intro hsmall
    have hlenle : (commandKeys.filter (fun c => c ≠ target)).Sublist commandKeys :=
      List.filter_sublist _
    have hlt : (commandKeys.filter (fun c => c ≠ target)).length < commandKeys.length := by
      rcases Nat.lt_or_ge (commandKeys.filter (fun c => c ≠ target)).length
          commandKeys.length with h | h
      · exact h
      · exfalso
        have heq := hlenle.eq_of_length (le_antisymm hlenle.length_le h)
        have hmem2 : target ∈ commandKeys.filter (fun c => c ≠ target) := by
          rw [heq]
          exact htarget
        exact hpoolmem target hmem2 rfl
    have hno3 : ¬ 3 ≤ (commandKeys.filter (fun c => c ≠ target)).length := by omega
    have hDpool : D = commandKeys.filter (fun c => c ≠ target) := by
      rw [hD, if_neg hno3]
    have hDlen : D.length = (commandKeys.filter (fun c => c ≠ target)).length := by
      rw [hDpool]
    have hlen : (shuffle ([target] ++ D)).length = D.length + 1 := by
      rw [hperm.length_eq]
      simp
    show (shuffle ([target] ++ D)).length < 4
    omega

def c4Info : CommandInfo :=
  { name := "kubectl version", description := "查看版本", usageFormat := "kubectl version",
    exampleStr := "kubectl version", kubernetes_concept := "版本" }

theorem c4_generate_challenge_witness :
    ((["kubectl version"] : List String) ≠ [] ∧
      (["kubectl version", "kubectl get pods", "kubectl get nodes"] : List String).Nodup ∧
      "kubectl version" ∈
        (["kubectl version", "kubectl get pods", "kubectl get nodes"] : List String) ∧
      (∀ l : List String, (id l).Perm l)) ∧
    ∃ ch, generate_challenge "chapter_1" 100 ["kubectl version"]
        ["kubectl version", "kubectl get pods", "kubectl get nodes"]
        (some c4Info) "kubectl version" 1000 [] id = some ch ∧
      ch.expected_command = "kubectl version" ∧
      ch.options.count "kubectl version" = 1 ∧
      ch.options[ch.correct_option_index]? = some "kubectl version" ∧
      (∀ j : ℕ, ch.options[j]? = some "kubectl version" → j = ch.correct_option_index) ∧
      ((["kubectl version", "kubectl get pods", "kubectl get nodes"] : List String).length < 4 →
        ch.options.length < 4) :=
  ⟨⟨by decide, by decide, by decide, fun l => List.Perm.refl l⟩,
    c4_generate_challenge "chapter_1" 100 ["kubectl version"]
      ["kubectl version", "kubectl get pods", "kubectl get nodes"] c4Info
      "kubectl version" 1000 [] id (by decide) (by decide) (by decide)
      (fun h => absurd h (by decide)) (fun l => List.Perm.refl l)⟩

/-! ## Claim C7: achievements unlock only once -/

/-- Unpack a successful `get?` into a length bound and a `getElem` value. -/
theorem get?_some_elem {α : Type _} {l : List α} {n : ℕ} {a : α}
    (h : l.get? n = some a) : ∃ hn : n < l.length, l[n] = a := by
  rw [List.get?_eq_getElem?, List.getElem?_eq_some_iff] at h
  exact h

/-- `unlock_achievement` characterised: either the lookup finds no locked
achievement with the given id and the player comes back unchanged, or the
first such entry (necessarily locked) is flipped in place, its id appended
to `achievements`, and beyond that only `level`, `experience`, `cultivation`
and `custom_titles` change (through the reward). -/
theorem unlock_achievement_shape (p : Player) (aid : String) :
    (p.achievement_objects.findIdx? (fun b => b.id == aid && !b.unlocked) = none ∧
      p.unlock_achievement aid = (p, false)) ∨
    (∃ i a, p.achievement_objects.findIdx? (fun b => b.id == aid && !b.unlocked) = some i ∧
      p.achievement_objects.get? i = some a ∧ a.unlocked = false ∧
      ∃ lvl xp cult titles,
        (p.unlock_achievement aid).1 =
          { p with
            achievement_objects := p.achievement_objects.set i { a with unlocked := true },
            achievements := p.achievements ++ [a.id],
            level := lvl, experience := xp, cultivation := cult,
            custom_titles := titles }) := by
  rcases hfind : p.achievement_objects.findIdx? (fun b => b.id == aid && !b.unlocked)
    with _ | i
  · left
    refine ⟨hfind, ?_⟩
    simp only [Player.unlock_achievement, hfind]
  · right
    rcases hget : p.achievement_objects.get? i with _ | a
    · exfalso
      rw [List.findIdx?_eq_some_iff_getElem] at hfind
      obtain ⟨hlt, -, -⟩ := hfind
      rw [List.get?_eq_getElem?, List.getElem?_eq_getElem hlt] at hget
      exact absurd hget (by simp)
    · obtain ⟨hlt, hval⟩ := get?_some_elem hget
      have hpred : (p.achievement_objects[i].id == aid &&
          !p.achievement_objects[i].unlocked) = true := by
        rw [List.findIdx?_eq_some_iff_getElem] at hfind
        obtain ⟨hlt2, hp2, -⟩ := hfind
        exact hp2
      rw [hval] at hpred
      have hau : a.unlocked = false := by
        rw [Bool.and_eq_true] at hpred
        simpa using hpred.2
      refine ⟨i, a, hfind, hget, hau, ?_⟩
      simp only [Player.unlock_achievement, hfind, hget]
      cases hre : a.reward_experience with
      | none =>
        cases hrt : a.reward_title with
        | none => exact ⟨p.level, p.experience, p.cultivation, p.custom_titles, rfl⟩
        | some t => exact ⟨p.level, p.experience, p.cultivation, p.custom_titles ++ [t], rfl⟩
      | some e =>
        obtain ⟨l, x, c, hsh⟩ := gainExpPos_shape
          { p with
            achievement_objects := p.achievement_objects.set i { a with unlocked := true },
            achievements := p.achievements ++ [a.id] } e
        rw [hre] at hsh
        cases hrt : a.reward_title with
        | none =>
          rw [hrt] at hsh
          exact ⟨l, x, c, p.custom_titles, hsh.trans rfl⟩
        | some t =>
          rw [hrt] at hsh
          exact ⟨l, x, c, p.custom_titles ++ [t],
            (congrArg (fun q : Player =>
              { q with custom_titles := q.custom_titles ++ [t] }) hsh).trans rfl⟩

/-- Unlocking never changes the statistics the unlock predicates read. -/
theorem unlock_achievement_stats (p : Player) (aid : String) :
    ((p.unlock_achievement aid).1).stats = p.stats := by
  rcases unlock_achievement_shape p aid with ⟨-, heq⟩ | ⟨i, a, -, -, -, l, x, c, t, heq⟩
  · exact congrArg (fun q => q.1.stats) heq
  · exact (congrArg Player.stats heq).trans rfl

/-- Unlocking preserves every per-achievement attribute map that ignores the
`unlocked` flag (ids, names, conditions, types). -/
theorem unlock_achievement_map (p : Player) (aid : String) (f : Achievement → String)
    (hf : ∀ a, f { a with unlocked := true } = f a) :
    ((p.unlock_achievement aid).1).achievement_objects.map f =
      p.achievement_objects.map f := by
  rcases unlock_achievement_shape p aid with ⟨-, heq⟩ | ⟨i, a, -, hget, -, l, x, c, t, heq⟩
  · exact congrArg (fun q => q.1.achievement_objects.map f) heq
  · have h1 : ((p.unlock_achievement aid).1).achievement_objects =
        p.achievement_objects.set i { a with unlocked := true } :=
      (congrArg Player.achievement_objects heq).trans rfl
    obtain ⟨hlt, hval⟩ := get?_some_elem hget
    rw [h1, List.map_set, hf a]
    apply List.ext_getElem?
    intro n
    by_cases hn : n = i
    · subst hn
      rw [List.getElem?_set_self (by simpa using hlt), List.getElem?_map,
        List.getElem?_eq_getElem hlt, hval]
      rfl
    · exact List.getElem?_set_ne (Ne.symm hn)

/-- Unlocking preserves the number of achievement objects. -/
theorem unlock_achievement_length (p : Player) (aid : String) :
    ((p.unlock_achievement aid).1).achievement_objects.length =
      p.achievement_objects.length := by
  have h := unlock_achievement_map p aid Achievement.id (fun a => rfl)
  calc ((p.unlock_achievement aid).1).achievement_objects.length
      = (((p.unlock_achievement aid).1).achievement_objects.map Achievement.id).length := by
        rw [List.length_map]
    _ = (p.achievement_objects.map Achievement.id).length := by rw [h]
    _ = p.achievement_objects.length := by rw [List.length_map]

/-- An entry that is already unlocked is never modified by
`unlock_achievement` (the flag flips `false → true` only). -/
theorem unlock_achievement_keeps_unlocked (p : Player) (aid : String) (i : ℕ)
    (a : Achievement) (hget : p.achievement_objects.get? i = some a)
    (hunl : a.unlocked = true) :
    ((p.unlock_achievement aid).1).achievement_objects.get? i = some a := by
  rcases unlock_achievement_shape p aid with ⟨-, heq⟩ | ⟨j, b, -, hgetb, hbunl, l, x, c, t, heq⟩
  · exact (congrArg (fun q => q.1.achievement_objects.get? i) heq).trans hget
  · have h1 : ((p.unlock_achievement aid).1).achievement_objects =
        p.achievement_objects.set j { b with unlocked := true } :=
      (congrArg Player.achievement_objects heq).trans rfl
    have hij : i ≠ j := by
      intro h
      subst h
      rw [hget] at hgetb
      have hab : a = b := Option.some.inj hgetb
      rw [← hab] at hbunl
      exact absurd (hunl.symm.trans hbunl) (by decide)
    rw [h1, List.get?_eq_getElem?, List.getElem?_set_ne (Ne.symm hij),
      ← List.get?_eq_getElem?]
    exact hget

/-- A still-locked entry of the unlock result was already present, locked,
at the same index before the call. -/
theorem unlock_achievement_locked_back (p : Player) (aid : String) (j : ℕ)
    (b : Achievement)
    (hgj : ((p.unlock_achievement aid).1).achievement_objects.get? j = some b)
    (hbu : b.unlocked = false) :
    p.achievement_objects.get? j = some b := by
  rcases unlock_achievement_shape p aid with ⟨-, heq⟩ | ⟨i, a, -, hget, hau, l, x, c, t, heq⟩
  · exact ((congrArg (fun q => q.1.achievement_objects.get? j) heq).symm.trans hgj : _)
  · have h1 : ((p.unlock_achievement aid).1).achievement_objects =
        p.achievement_objects.set i { a with unlocked := true } :=
      (congrArg Player.achievement_objects heq).trans rfl
    obtain ⟨hlt, -⟩ := get?_some_elem hget
    rw [h1, List.get?_eq_getElem?] at hgj
    by_cases hij : j = i
    · subst hij
      rw [List.getElem?_set_self hlt] at hgj
      have h2 : { a with unlocked := true } = b := Option.some.inj hgj
      rw [← h2] at hbu
      exact absurd hbu (by simp)
    · rw [List.getElem?_set_ne (Ne.symm hij), ← List.get?_eq_getElem?] at hgj
      exact hgj

/-- With distinct ids, the lookup inside `unlock_achievement` finds exactly
the locked entry it was called for. -/
theorem findIdx_locked_at (p : Player) (k : ℕ) (a : Achievement)
    (hid : (p.achievement_objects.map Achievement.id).Nodup)
    (hget : p.achievement_objects.get? k = some a) (hunl : a.unlocked = false) :
    p.achievement_objects.findIdx? (fun b => b.id == a.id && !b.unlocked) = some k := by
  obtain ⟨hlt, hval⟩ := get?_some_elem hget
  rw [List.findIdx?_eq_some_iff_getElem]
  refine ⟨hlt, ?_, ?_⟩
  · rw [hval]
    simp [hunl]
  · intro j hjk
    have hjlt : j < p.achievement_objects.length := Nat.lt_trans hjk hlt
    intro hpred
    have hideq : p.achievement_objects[j].id = a.id := by
      rw [Bool.and_eq_true] at hpred
      simpa using hpred.1
    have hmi : j < (p.achievement_objects.map Achievement.id).length := by
      simpa using hjlt
    have hmk : k < (p.achievement_objects.map Achievement.id).length := by
      simpa using hlt
    have hmeq : (p.achievement_objects.map Achievement.id)[j] =
        (p.achievement_objects.map Achievement.id)[k] := by
      simp only [List.getElem_map]
      rw [hval, hideq]
    exact absurd ((hid.getElem_inj_iff).1 hmeq) (Nat.ne_of_lt hjk)

/-- With distinct ids, unlocking a locked entry sets exactly that entry. -/
theorem unlock_objects_of_locked (p : Player) (k : ℕ) (a : Achievement)
    (hid : (p.achievement_objects.map Achievement.id).Nodup)
    (hget : p.achievement_objects.get? k = some a) (hunl : a.unlocked = false) :
    ((p.unlock_achievement a.id).1).achievement_objects =
      p.achievement_objects.set k { a with unlocked := true } := by
  have hfind := findIdx_locked_at p k a hid hget hunl
  rcases unlock_achievement_shape p a.id
    with ⟨hnone, -⟩ | ⟨i, b, hfind2, hgetb, -, l, x, c, t, heq⟩
  · rw [hnone] at hfind
    exact absurd hfind (by simp)
  · rw [hfind2] at hfind
    have hik : i = k := Option.some.inj hfind
    subst hik
    rw [hget] at hgetb
    have hab : a = b := Option.some.inj hgetb
    subst hab
    exact (congrArg Player.achievement_objects heq).trans rfl

/-- The loop of `check_and_unlock_achievements` never changes the unlock
statistics. -/
theorem cauGo_stats : ∀ (fuel k : ℕ) (p : Player),
    ((cauGo fuel k p).1).stats = p.stats := by
  intro fuel
  induction fuel with
  | zero => intro k p; rfl
  | succ f ih =>
    intro k p
    rw [cauGo]
    split
    · rfl
    · rename_i a hk
      split
      · exact ih (k + 1) p
      · split
        · exact (ih (k + 1) ((p.unlock_achievement a.id).1)).trans
            (unlock_achievement_stats p a.id)
        · exact ih (k + 1) p

/-- The loop preserves every attribute map that ignores the flag. -/
theorem cauGo_map : ∀ (fuel k : ℕ) (p : Player) (f : Achievement → String),
    (∀ a, f { a with unlocked := true } = f a) →
    ((cauGo fuel k p).1).achievement_objects.map f =
      p.achievement_objects.map f := by
  intro fuel
  induction fuel with
  | zero => intro k p f hf; rfl
  | succ f2 ih =>
    intro k p f hf
    rw [cauGo]
    split
    · rfl
    · rename_i a hk
      split
      · exact ih (k + 1) p f hf
      · split
        · exact (ih (k + 1) ((p.unlock_achievement a.id).1) f hf).trans
            (unlock_achievement_map p a.id f hf)
        · exact ih (k + 1) p f hf

/-- An already-unlocked entry survives the whole loop untouched. -/
theorem cauGo_keeps_unlocked : ∀ (fuel k : ℕ) (p : Player) (i : ℕ) (a : Achievement),
    p.achievement_objects.get? i = some a → a.unlocked = true →
    ((cauGo fuel k p).1).achievement_objects.get? i = some a := by
  intro fuel
  induction fuel with
  | zero => intro k p i a hget hunl; exact hget
  | succ f ih =>
    intro k p i a hget hunl
    rw [cauGo]
    split
    · exact hget
    · rename_i b hk
      split
      · exact ih (k + 1) p i a hget hunl
      · split
        · exact ih (k + 1) ((p.unlock_achievement b.id).1) i a
            (unlock_achievement_keeps_unlocked p b.id i a hget hunl) hunl
        · exact ih (k + 1) p i a hget hunl

/-- Every name the loop reports belonged to a locked entry of the input. -/
theorem cauGo_report : ∀ (fuel k : ℕ) (p : Player) (nm : String),
    nm ∈ (cauGo fuel k p).2 →
    ∃ j b, p.achievement_objects.get? j = some b ∧ b.unlocked = false ∧
      b.name = nm := by
  intro fuel
  induction fuel with
  | zero =>
    intro k p nm h
    rw [cauGo] at h
    exact absurd h (List.not_mem_nil nm)
  | succ f ih =>
    intro k p nm h
    rw [cauGo] at h
    split at h
    · exact absurd h (List.not_mem_nil nm)
    · rename_i a hk
      split at h
      · exact ih (k + 1) p nm h
      · split at h
        · rename_i hu hcm
          simp only [] at h
          rcases List.mem_cons.1 h with heq | htail
          · exact ⟨k, a, hk, by simpa using hu, heq.symm⟩
          · obtain ⟨j, b, hgj, hbu, hbn⟩ :=
              ih (k + 1) ((p.unlock_achievement a.id).1) nm htail
            exact ⟨j, b, unlock_achievement_locked_back p a.id j b hgj hbu, hbu, hbn⟩
        · exact ih (k + 1) p nm h

/-- When no locked entry's predicate holds, the loop is a perfect no-op. -/
theorem cauGo_noop : ∀ (fuel k : ℕ) (p : Player),
    (∀ a ∈ p.achievement_objects, a.unlocked = false → condMet p.stats a = false) →
    cauGo fuel k p = (p, []) := by
  intro fuel
  induction fuel with
  | zero => intro k p h; rfl
  | succ f ih =>
    intro k p h
    rw [cauGo]
    split
    · rfl
    · rename_i a hk
      split
      · exact ih (k + 1) p h
      · split
        · rename_i hu hcm
          have hfalse := h a (List.get?_mem hk) (by simpa using hu)
          exact absurd hcm (by simp [hfalse])
        · exact ih (k + 1) p h

/-- `check_and_unlock_achievements` on a profile with no unlockable locked
entry returns the profile unchanged and reports nothing. -/
theorem check_and_unlock_noop (p : Player)
    (h : ∀ a ∈ p.achievement_objects, a.unlocked = false →
      condMet p.stats a = false) :
    p.check_and_unlock_achievements = (p, []) :=
  cauGo_noop p.achievement_objects.length 0 p h

/-- After the loop has run over the whole catalog (with distinct ids), every
still-locked entry of the result has a false predicate, so a second run can
unlock nothing. -/
theorem cauGo_post : ∀ (fuel k : ℕ) (p : Player),
    (p.achievement_objects.map Achievement.id).Nodup →
    p.achievement_objects.length ≤ fuel + k →
    (∀ j b, j < k → p.achievement_objects.get? j = some b → b.unlocked = false →
      condMet p.stats b = false) →
    ∀ j b, ((cauGo fuel k p).1).achievement_objects.get? j = some b →
      b.unlocked = false → condMet p.stats b = false := by
  intro fuel
  induction fuel with
  | zero =>
    intro k p hid hlen hpre j b hgj hbu
    have hgj2 : p.achievement_objects.get? j = some b := hgj
    obtain ⟨hjlt, -⟩ := get?_some_elem hgj2
    exact hpre j b (by omega) hgj2 hbu
  | succ f ih =>
    intro k p hid hlen hpre j b hgj hbu
    rw [cauGo] at hgj
    split at hgj
    · rename_i hnone
      have hgj2 : p.achievement_objects.get? j = some b := hgj
      have hklen : p.achievement_objects.length ≤ k := List.get?_eq_none.1 hnone
      obtain ⟨hjlt, -⟩ := get?_some_elem hgj2
      exact hpre j b (by omega) hgj2 hbu
    · rename_i a hk
      split at hgj
      · rename_i hu
        refine ih (k + 1) p hid (by omega) ?_ j b hgj hbu
        intro j2 b2 hj2 hg2 hb2
        by_cases hj2k : j2 = k
        · subst hj2k
          rw [hk] at hg2
          have hab : a = b2 := Option.some.inj hg2
          rw [← hab] at hb2
          exact absurd (hu.symm.trans hb2) (by decide)
        · exact hpre j2 b2 (by omega) hg2 hb2
      · split at hgj
        · rename_i hu hcm
          have hau : a.unlocked = false := by simpa using hu
          obtain ⟨hklt, -⟩ := get?_some_elem hk
          have hobjs := unlock_objects_of_locked p k a hid hk hau
          have hstats := unlock_achievement_stats p a.id
          have hnodup2 : (((p.unlock_achievement a.id).1).achievement_objects.map
              Achievement.id).Nodup := by
            rw [unlock_achievement_map p a.id Achievement.id (fun x => rfl)]
            exact hid
          have hlen2 : ((p.unlock_achievement a.id).1).achievement_objects.length ≤
              f + (k + 1) := by
            rw [unlock_achievement_length]
            omega
          have hpre2 : ∀ j2 b2, j2 < k + 1 →
              ((p.unlock_achievement a.id).1).achievement_objects.get? j2 = some b2 →
              b2.unlocked = false →
              condMet ((p.unlock_achievement a.id).1).stats b2 = false := by
            intro j2 b2 hj2 hg2 hb2
            rw [hstats]
            rw [hobjs, List.get?_eq_getElem?] at hg2
            by_cases hj2k : j2 = k
            · subst hj2k
              rw [List.getElem?_set_self hklt] at hg2
              have h2 : { a with unlocked := true } = b2 := Option.some.inj hg2
              rw [← h2] at hb2
              exact absurd hb2 (by simp)
            · rw [List.getElem?_set_ne (fun hh => hj2k hh.symm),
                ← List.get?_eq_getElem?] at hg2
              exact hpre j2 b2 (by omega) hg2 hb2
          have hres := ih (k + 1) ((p.unlock_achievement a.id).1)
            hnodup2 hlen2 hpre2 j b hgj hbu
          rw [hstats] at hres
          exact hres
        · rename_i hu hcm
          refine ih (k + 1) p hid (by omega) ?_ j b hgj hbu
          intro j2 b2 hj2 hg2 hb2
          by_cases hj2k : j2 = k
          · subst hj2k
            rw [hk] at hg2
            have hab : a = b2 := Option.some.inj hg2
            rw [← hab]
            simpa using hcm
          · exact hpre j2 b2 (by omega) hg2 hb2

/-- Claim C7: an achievement whose `unlocked` flag is already `true` is kept
exactly in place by `check_and_unlock_achievements` and its name is not
reported as newly unlocked (so its reward is not awarded again);
`unlock_achievement` likewise never touches an unlocked entry, so the flag
flips `false → true` only; and a second `check_and_unlock_achievements`
call on the result of a first one changes nothing and reports nothing.
The `Nodup` hypotheses say the catalog carries no duplicate ids or names,
true of the predefined catalog. -/
theorem c7_achievement_unlock_idempotent (p : Player)
    (hid : (p.achievement_objects.map Achievement.id).Nodup)
    (hname : (p.achievement_objects.map Achievement.name).Nodup) :
    (∀ i a, p.achievement_objects.get? i = some a → a.unlocked = true →
      ((p.check_and_unlock_achievements).1).achievement_objects.get? i = some a ∧
        a.name ∉ (p.check_and_unlock_achievements).2) ∧
    (∀ aid i a, p.achievement_objects.get? i = some a → a.unlocked = true →
      ((p.unlock_achievement aid).1).achievement_objects.get? i = some a) ∧
    ((p.check_and_unlock_achievements).1).check_and_unlock_achievements =
      ((p.check_and_unlock_achievements).1, []) := by
  refine ⟨?_, ?_, ?_⟩
  · intro i a hget hunl
    refine ⟨cauGo_keeps_unlocked p.achievement_objects.length 0 p i a hget hunl, ?_⟩
    intro hmem
    obtain ⟨j, b, hgetb, hbu, hbn⟩ :=
      cauGo_report p.achievement_objects.length 0 p a.name hmem
    obtain ⟨hlti, hvali⟩ := get?_some_elem hget
    obtain ⟨hltj, hvalj⟩ := get?_some_elem hgetb
    have hij : i ≠ j := by
      intro h
      subst h
      rw [hget] at hgetb
      have hab : a = b := Option.some.inj hgetb
      rw [← hab] at hbu
      exact absurd (hunl.symm.trans hbu) (by decide)
    apply hij
    have hmi : i < (p.achievement_objects.map Achievement.name).length := by
      simpa using hlti
    have hmj : j < (p.achievement_objects.map Achievement.name).length := by
      simpa using hltj
    have hmeq : (p.achievement_objects.map Achievement.name)[i] =
        (p.achievement_objects.map Achievement.name)[j] := by
      simp only [List.getElem_map]
      rw [hvali, hvalj, hbn]
    exact (hname.getElem_inj_iff).1 hmeq
  · intro aid i a hget hunl
    exact unlock_achievement_keeps_unlocked p aid i a hget hunl
  · have hpost := cauGo_post p.achievement_objects.length 0 p hid (by omega)
      (fun j b hj _ _ => absurd hj (Nat.not_lt_zero j))
    apply check_and_unlock_noop
    intro a ha hau
    obtain ⟨n, hn⟩ := List.get?_of_mem ha
    have hcm := hpost n a hn hau
    have hst : ((p.check_and_unlock_achievements).1).stats = p.stats :=
      cauGo_stats p.achievement_objects.length 0 p
    rw [hst]
    exact hcm

/-- A profile whose streak-5 achievement is already unlocked, used to
instantiate the idempotence theorem on a concrete input. -/
def c7Profile : Player :=
  { name := "测试", sect := .xuantian, level := 3, experience := 50,
    cultivation := .fanren, skills := [], achievements := ["streak_5"],
    achievement_objects := predefinedAchievements.map
      (fun a => if a.id = "streak_5" then { a with unlocked := true } else a),
    current_chapter := "序章",
    kubectl_commands_mastered := [], challenges_completed := [], streak := 0,
    total_correct := 5, total_attempts := 5, custom_titles := ["连击高手"],
    sect_bonus := 1, health := 100, max_health := 100, attack := 10,
    defense := 5, wrong_commands := [] }

theorem c7_achievement_unlock_idempotent_witness :
    ((c7Profile.achievement_objects.map Achievement.id).Nodup ∧
      (c7Profile.achievement_objects.map Achievement.name).Nodup) ∧
    ((∀ i a, c7Profile.achievement_objects.get? i = some a → a.unlocked = true →
      ((c7Profile.check_and_unlock_achievements).1).achievement_objects.get? i = some a ∧
        a.name ∉ (c7Profile.check_and_unlock_achievements).2) ∧
    (∀ aid i a, c7Profile.achievement_objects.get? i = some a → a.unlocked = true →
      ((c7Profile.unlock_achievement aid).1).achievement_objects.get? i = some a) ∧
    ((c7Profile.check_and_unlock_achievements).1).check_and_unlock_achievements =
      ((c7Profile.check_and_unlock_achievements).1, [])) :=
  ⟨⟨by decide, by decide⟩,
    c7_achievement_unlock_idempotent c7Profile (by decide) (by decide)⟩

/-! ## Claim C10: the experience credited by a correct answer -/

/-- The total threshold experience consumed by climbing from level 1 to
level `n + 1`. -/
def reqSumAux : ℕ → ℤ
  | 0 => 0
  | n + 1 => reqSumAux n + requiredExp ((n : ℤ) + 1)

/-- The total experience a profile has absorbed: the current remainder plus
every threshold consumed by a level-up.  Experience-granting operations move
this potential by exactly the truncated scaled amount, whether or not a
level-up fires. -/
def totalExpOf (p : Player) : ℤ :=
  p.experience + reqSumAux (p.level - 1).toNat

/-- The level-up loop only converts remainder experience into levels: the
potential is invariant. -/
theorem levelUpGo_total : ∀ (fuel : ℕ) (lvl e : ℤ), 1 ≤ lvl →
    (levelUpGo fuel lvl e).2 + reqSumAux ((levelUpGo fuel lvl e).1 - 1).toNat =
      e + reqSumAux (lvl - 1).toNat := by
  intro fuel
  induction fuel with
  | zero => intro lvl e h; rfl
  | succ f ih =>
    intro lvl e h
    rw [levelUpGo]
    split
    · rename_i hg
      rw [ih (lvl + 1) (e - requiredExp lvl) (by omega)]
      have h1 : (lvl + 1 - 1).toNat = (lvl - 1).toNat + 1 := by omega
      rw [h1, reqSumAux]
      have h2 : (((lvl - 1).toNat : ℤ)) + 1 = lvl := by omega
      rw [h2]
      ring
    · rfl

/-- `level_up` preserves the experience potential. -/
theorem level_up_total (p : Player) (hlvl : 1 ≤ p.level) :
    totalExpOf p.level_up = totalExpOf p := by
  rw [Player.level_up]
  split
  · show (levelUpGo (p.experience.toNat + 1) p.level p.experience).2 +
      reqSumAux ((levelUpGo (p.experience.toNat + 1) p.level p.experience).1 - 1).toNat =
      p.experience + reqSumAux (p.level - 1).toNat
    exact levelUpGo_total (p.experience.toNat + 1) p.level p.experience hlvl
  · rfl

/-- `gainExpPos` moves the potential by exactly `int(exp * bonus)`. -/
theorem gainExpPos_total (p : Player) (exp : ℤ) (hlvl : 1 ≤ p.level) :
    totalExpOf (p.gainExpPos exp).1 =
      totalExpOf p + pyTrunc (fl (fl (exp : ℚ) * p.sect_bonus)) := by
  rw [Player.gainExpPos]
  split
  · rw [level_up_total
      { p with experience := p.experience + pyTrunc (fl (fl (exp : ℚ) * p.sect_bonus)) } hlvl]
    show p.experience + pyTrunc (fl (fl (exp : ℚ) * p.sect_bonus)) +
        reqSumAux (p.level - 1).toNat =
      p.experience + reqSumAux (p.level - 1).toNat + pyTrunc (fl (fl (exp : ℚ) * p.sect_bonus))
    ring
  · show p.experience + pyTrunc (fl (fl (exp : ℚ) * p.sect_bonus)) +
        reqSumAux (p.level - 1).toNat =
      p.experience + reqSumAux (p.level - 1).toNat + pyTrunc (fl (fl (exp : ℚ) * p.sect_bonus))
    ring

/-- The level-up loop never lowers the level. -/
theorem levelUpGo_le : ∀ (fuel : ℕ) (lvl e : ℤ), lvl ≤ (levelUpGo fuel lvl e).1 := by
  intro fuel
  induction fuel with
  | zero => intro lvl e; exact le_refl lvl
  | succ f ih =>
    intro lvl e
    rw [levelUpGo]
    split
    · exact le_trans (by omega) (ih (lvl + 1) (e - requiredExp lvl))
    · exact le_refl lvl

/-- `level_up` never lowers the level. -/
theorem level_up_level_le (p : Player) : p.level ≤ p.level_up.level := by
  rw [Player.level_up]
  split
  · exact levelUpGo_le _ p.level _
  · exact le_refl p.level

/-- `gainExpPos` never lowers the level. -/
theorem gainExpPos_level_le (p : Player) (exp : ℤ) :
    p.level ≤ ((p.gainExpPos exp).1).level := by
  rw [Player.gainExpPos]
  split
  · exact level_up_level_le
      { p with experience := p.experience + pyTrunc (fl (fl (exp : ℚ) * p.sect_bonus)) }
  · exact le_refl p.level

/-- Claim C10: on a correct in-range answer for a challenge whose id is not
yet completed and whose expected command is not yet mastered (both
non-empty), with no achievement becoming unlockable at the post-answer
statistics, `check_answer` credits the profile with
`int(reward_exp*bonus) + int(100*bonus) + int(50*bonus)` total experience —
the challenge reward through `gain_experience` plus the 100-point
`complete_challenge` bonus plus the 50-point `learn_command` bonus, each
scaled by the sect bonus and truncated separately in binary64 — measured by
the level-aware potential `totalExpOf`. -/
theorem c10_correct_answer_experience_credit (st : GameEngine) (p : Player)
    (ch : Challenge)
    (hp : st.player = some p) (hch : st.current_challenge = some ch)
    (hlvl : 1 ≤ p.level)
    (hcid : ¬ ch.challenge_id = "") (hcidnew : ch.challenge_id ∉ p.challenges_completed)
    (hcmd : ¬ ch.expected_command = "")
    (hcmdnew : ch.expected_command ∉ p.kubectl_commands_mastered)
    (hidx : ch.correct_option_index < ch.options.length)
    (hnou : ∀ a ∈ p.achievement_objects, a.unlocked = false →
      condMet ⟨p.kubectl_commands_mastered.length + 1, p.current_chapter,
        p.challenges_completed.length + 1, p.streak + 1⟩ a = false) :
    ∃ res st2, st.check_answer ((ch.correct_option_index : ℤ) + 1) = some (res, st2) ∧
      res.correct = true ∧
      ∃ q, st2.player = some q ∧
        totalExpOf q = totalExpOf p
          + pyTrunc (fl (fl (ch.reward_exp : ℚ) * p.sect_bonus))
          + pyTrunc (fl (fl (100 : ℚ) * p.sect_bonus))
          + pyTrunc (fl (fl (50 : ℚ) * p.sect_bonus)) := by
  have hconc : ¬ (p.challenges_completed.contains ch.challenge_id = true) := by
    intro hcon
    exact hcidnew (List.elem_iff.1 hcon)
  have hcc : p.complete_challenge ch.challenge_id =
      some (((Player.gainExpPos { p with challenges_completed := p.challenges_completed ++ [ch.challenge_id] } 100).1, true)) := by
    rw [Player.complete_challenge, if_neg hcid, if_neg hconc]
  obtain ⟨l1, x1, u1, hsh1⟩ := gainExpPos_shape { p with challenges_completed := p.challenges_completed ++ [ch.challenge_id] } 100
  have hobj : ((Player.gainExpPos { p with challenges_completed := p.challenges_completed ++ [ch.challenge_id] } 100).1).kubectl_commands_mastered = p.kubectl_commands_mastered := by
    rw [hsh1]
  have hknocon : ¬ (((Player.gainExpPos { p with challenges_completed := p.challenges_completed ++ [ch.challenge_id] } 100).1).kubectl_commands_mastered.contains ch.expected_command = true) := by
    intro hcon
    rw [hobj] at hcon
    exact hcmdnew (List.elem_iff.1 hcon)
  have hlc : ((Player.gainExpPos { p with challenges_completed := p.challenges_completed ++ [ch.challenge_id] } 100).1).learn_command ch.expected_command =
      some (((Player.gainExpPos { (Player.gainExpPos { p with challenges_completed := p.challenges_completed ++ [ch.challenge_id] } 100).1 with kubectl_commands_mastered := ((Player.gainExpPos { p with challenges_completed := p.challenges_completed ++ [ch.challenge_id] } 100).1).kubectl_commands_mastered ++ [ch.expected_command] } 50).1, true)) := by
    rw [Player.learn_command, if_neg hcmd, if_neg hknocon]
  obtain ⟨l2, x2, u2, hsh2⟩ := gainExpPos_shape { (Player.gainExpPos { p with challenges_completed := p.challenges_completed ++ [ch.challenge_id] } 100).1 with kubectl_commands_mastered := ((Player.gainExpPos { p with challenges_completed := p.challenges_completed ++ [ch.challenge_id] } 100).1).kubectl_commands_mastered ++ [ch.expected_command] } 50
  obtain ⟨l3, x3, u3, hsh3⟩ := gainExpPos_shape (Player.gainExpPos { (Player.gainExpPos { p with challenges_completed := p.challenges_completed ++ [ch.challenge_id] } 100).1 with kubectl_commands_mastered := ((Player.gainExpPos { p with challenges_completed := p.challenges_completed ++ [ch.challenge_id] } 100).1).kubectl_commands_mastered ++ [ch.expected_command] } 50).1 (ch.reward_exp : ℤ)
  have h2lvl : 1 ≤ ({ (Player.gainExpPos { p with challenges_completed := p.challenges_completed ++ [ch.challenge_id] } 100).1 with kubectl_commands_mastered := ((Player.gainExpPos { p with challenges_completed := p.challenges_completed ++ [ch.challenge_id] } 100).1).kubectl_commands_mastered ++ [ch.expected_command] } : Player).level :=
    le_trans hlvl (gainExpPos_level_le { p with challenges_completed := p.challenges_completed ++ [ch.challenge_id] } 100)
  have h3lvl : 1 ≤ ((Player.gainExpPos { (Player.gainExpPos { p with challenges_completed := p.challenges_completed ++ [ch.challenge_id] } 100).1 with kubectl_commands_mastered := ((Player.gainExpPos { p with challenges_completed := p.challenges_completed ++ [ch.challenge_id] } 100).1).kubectl_commands_mastered ++ [ch.expected_command] } 50).1 : Player).level :=
    le_trans h2lvl (gainExpPos_level_le { (Player.gainExpPos { p with challenges_completed := p.challenges_completed ++ [ch.challenge_id] } 100).1 with kubectl_commands_mastered := ((Player.gainExpPos { p with challenges_completed := p.challenges_completed ++ [ch.challenge_id] } 100).1).kubectl_commands_mastered ++ [ch.expected_command] } 50)
  have ht1 := gainExpPos_total { p with challenges_completed := p.challenges_completed ++ [ch.challenge_id] } 100 hlvl
  rw [hsh1] at ht1
  have ht1x : x1 + reqSumAux (l1 - 1).toNat =
      totalExpOf p + pyTrunc (fl (fl ((100 : ℤ) : ℚ) * p.sect_bonus)) := ht1
  have ht2 := gainExpPos_total { (Player.gainExpPos { p with challenges_completed := p.challenges_completed ++ [ch.challenge_id] } 100).1 with kubectl_commands_mastered := ((Player.gainExpPos { p with challenges_completed := p.challenges_completed ++ [ch.challenge_id] } 100).1).kubectl_commands_mastered ++ [ch.expected_command] } 50 h2lvl
  rw [hsh2, hsh1] at ht2
  have ht2x : x2 + reqSumAux (l2 - 1).toNat =
      x1 + reqSumAux (l1 - 1).toNat +
        pyTrunc (fl (fl ((50 : ℤ) : ℚ) * p.sect_bonus)) := ht2
  have ht3 := gainExpPos_total (Player.gainExpPos { (Player.gainExpPos { p with challenges_completed := p.challenges_completed ++ [ch.challenge_id] } 100).1 with kubectl_commands_mastered := ((Player.gainExpPos { p with challenges_completed := p.challenges_completed ++ [ch.challenge_id] } 100).1).kubectl_commands_mastered ++ [ch.expected_command] } 50).1 (ch.reward_exp : ℤ) h3lvl
  rw [hsh3, hsh2, hsh1] at ht3
  have ht3x : x3 + reqSumAux (l3 - 1).toNat =
      x2 + reqSumAux (l2 - 1).toNat +
        pyTrunc (fl (fl ((ch.reward_exp : ℤ) : ℚ) * p.sect_bonus)) := ht3
  have hc100 : (((100 : ℤ)) : ℚ) = (100 : ℚ) := by norm_cast
  have hc50 : (((50 : ℤ)) : ℚ) = (50 : ℚ) := by norm_cast
  have hcrew : (((ch.reward_exp : ℤ)) : ℚ) = (ch.reward_exp : ℚ) := by norm_cast
  rw [hc100] at ht1x
  rw [hc50] at ht2x
  rw [hcrew] at ht3x
  have hstD : ({ p with level := l3, experience := x3, cultivation := u3, kubectl_commands_mastered := p.kubectl_commands_mastered ++ [ch.expected_command], challenges_completed := p.challenges_completed ++ [ch.challenge_id], streak := p.streak + 1, total_correct := p.total_correct + 1, total_attempts := p.total_attempts + 1 } : Player).stats =
      ⟨p.kubectl_commands_mastered.length + 1, p.current_chapter,
        p.challenges_completed.length + 1, p.streak + 1⟩ := by
    simp [Player.stats]
  have hypD : ∀ a ∈ ({ p with level := l3, experience := x3, cultivation := u3, kubectl_commands_mastered := p.kubectl_commands_mastered ++ [ch.expected_command], challenges_completed := p.challenges_completed ++ [ch.challenge_id], streak := p.streak + 1, total_correct := p.total_correct + 1, total_attempts := p.total_attempts + 1 } : Player).achievement_objects, a.unlocked = false →
      condMet ({ p with level := l3, experience := x3, cultivation := u3, kubectl_commands_mastered := p.kubectl_commands_mastered ++ [ch.expected_command], challenges_completed := p.challenges_completed ++ [ch.challenge_id], streak := p.streak + 1, total_correct := p.total_correct + 1, total_attempts := p.total_attempts + 1 } : Player).stats a = false := by
    intro a ha hau
    rw [hstD]
    exact hnou a ha hau
  have hno := check_and_unlock_noop { p with level := l3, experience := x3, cultivation := u3, kubectl_commands_mastered := p.kubectl_commands_mastered ++ [ch.expected_command], challenges_completed := p.challenges_completed ++ [ch.challenge_id], streak := p.streak + 1, total_correct := p.total_correct + 1, total_attempts := p.total_attempts + 1 } hypD
  have hlcg := hlc
  simp only [hsh1] at hlcg
  have hsh2g := hsh2
  simp only [hsh1] at hsh2g
  have hsh3g := hsh3
  simp only [hsh1, hsh2g] at hsh3g
  have hrange : ¬ ((ch.correct_option_index : ℤ) < 0 ∨
      (ch.options.length : ℤ) ≤ (ch.correct_option_index : ℤ)) := by
    omega
  simp only [GameEngine.check_answer, hch, hp, Player.update_streak,
    add_sub_cancel_right, hrange, decide_eq_true_eq, eq_self_iff_true, if_true,
    if_false, hcc, hsh1, hlcg, hsh2g, hsh3g, hno]
  refine ⟨_, _, rfl, rfl, _, rfl, ?_⟩
  show x3 + reqSumAux (l3 - 1).toNat = totalExpOf p
    + pyTrunc (fl (fl (ch.reward_exp : ℚ) * p.sect_bonus))
    + pyTrunc (fl (fl (100 : ℚ) * p.sect_bonus))
    + pyTrunc (fl (fl (50 : ℚ) * p.sect_bonus))
  omega

theorem c10_correct_answer_experience_credit_witness :
    (c5Engine.player = some c2Profile ∧
      c5Engine.current_challenge = some c5Challenge ∧
      (1 : ℤ) ≤ c2Profile.level ∧
      ¬ c5Challenge.challenge_id = "" ∧
      c5Challenge.challenge_id ∉ c2Profile.challenges_completed ∧
      ¬ c5Challenge.expected_command = "" ∧
      c5Challenge.expected_command ∉ c2Profile.kubectl_commands_mastered ∧
      c5Challenge.correct_option_index < c5Challenge.options.length ∧
      (∀ a ∈ c2Profile.achievement_objects, a.unlocked = false →
        condMet ⟨c2Profile.kubectl_commands_mastered.length + 1,
          c2Profile.current_chapter, c2Profile.challenges_completed.length + 1,
          c2Profile.streak + 1⟩ a = false)) ∧
    (∃ res st2,
      c5Engine.check_answer ((c5Challenge.correct_option_index : ℤ) + 1) =
        some (res, st2) ∧
      res.correct = true ∧
      ∃ q, st2.player = some q ∧
        totalExpOf q = totalExpOf c2Profile
          + pyTrunc (fl (fl (c5Challenge.reward_exp : ℚ) * c2Profile.sect_bonus))
          + pyTrunc (fl (fl (100 : ℚ) * c2Profile.sect_bonus))
          + pyTrunc (fl (fl (50 : ℚ) * c2Profile.sect_bonus))) :=
  ⟨⟨rfl, rfl, by decide, by decide, by decide, by decide, by decide, by decide,
      by decide⟩,
    c10_correct_answer_experience_credit c5Engine c2Profile c5Challenge rfl rfl
      (by decide) (by decide) (by decide) (by decide) (by decide) (by decide)
      (by decide)⟩

/-! ## Claim C1: the save/load round trip -/

/-- A legitimately-earned profile: five straight correct answers unlocked
the streak-5 achievement, whose reward experience was consumed by earlier
level-ups back down to level 1 with 0 experience (the fields are arbitrary
but consistent; only `level`, `experience`, `streak` and the unlocked
achievement matter to the round trip). -/
def c1Profile : Player :=
  { name := "侠客", sect := .xuantian, level := 1, experience := 0,
    cultivation := .fanren, skills := [], achievements := ["streak_5"],
    achievement_objects := predefinedAchievements.map
      (fun a => if a.id = "streak_5" then { a with unlocked := true } else a),
    current_chapter := "序章",
    kubectl_commands_mastered := [], challenges_completed := [], streak := 5,
    total_correct := 5, total_attempts := 5, custom_titles := ["连击高手"],
    sect_bonus := 1, health := 100, max_health := 100, attack := 10,
    defense := 5, wrong_commands := [] }

/-- Claim C1 is falsified by the code: saving `c1Profile` (level 1,
experience 0, streak 5, streak-5 achievement already unlocked) and loading
the result yields level 3 and experience 50 instead.  The constructor run by
`load` re-initialises the predefined achievements (all locked) before `load`
restores the saved ones, so `check_and_unlock_achievements` re-awards the
streak-5 reward of 300 experience, which levels the profile 1 → 3.  The
mastered-command list, challenge list and streak do round-trip. -/
theorem c1_save_load_divergence :
    ((Player.load (.parsed c1Profile.to_dict)).map
        (fun q => (q.level, q.experience, q.kubectl_commands_mastered,
          q.challenges_completed, q.streak)) =
      some (3, 50, [], [], 5)) ∧
    (c1Profile.level, c1Profile.experience, c1Profile.kubectl_commands_mastered,
      c1Profile.challenges_completed, c1Profile.streak) = (1, 0, [], [], 5) := by
  constructor
  · decide
  · decide

end KuGame
